import Mathlib

/-!
Verification of the binary animation codec implemented in the repository
(`AnimationParser.parse` / `AnimationParser.repack`, the half-float codec
`halfToFloat` / `float32ToFloat16`, the smallest-three quaternion codec
`parseCompressedQuaternion` / `compressQuaternion`, and the trailing-data
multiplication step of `GLTFHandler.importGLTF`).

Modelling conventions for the shallow embedding:
* Byte buffers (`ArrayBuffer` / `Uint8Array`) are `List ℕ`, one entry per byte.
  Theorems that need genuine byte arrays carry the hypothesis that all entries
  are `< 256`.
* JavaScript numbers flowing through the position pipeline are modelled by
  `JSF` (finite rationals with an explicit sign, infinities and NaN), because
  `halfToFloat` can produce signed zeros, infinities and NaN and
  `float32ToFloat16` observes the IEEE-754 binary32 bit pattern of its input.
  The `Float32Array` store buried in `float32ToFloat16` is modelled by
  `f32bits`, round-to-nearest-even conversion to the binary32 format.
* JavaScript numbers in the quaternion pipeline are modelled as real numbers
  (`Math.sqrt` ↦ `Real.sqrt`, `Math.round x` ↦ `round x = ⌊x + 1/2⌋`,
  arithmetic exact).  All numeric literals denote their exact decimal values.
* `DataView` reads/writes are little-endian with explicit bounds checks; a
  failed check models the thrown `RangeError`.
* The mutable `AnimationParser` instance is an explicit `ParserState` value
  threaded through `parse` (which assigns its fields) and read by `repack`
  (which assigns none).  Thrown exceptions are modelled by `Except`.
-/

/-! ## Byte buffers and DataView primitives -/

/-- Little-endian value of a byte list (least significant byte first). -/
def leVal : List ℕ → ℕ
  | [] => 0
  | b :: rest => b + 256 * leVal rest

/-- Bytes `[off, off+n)` of `buf`, or `none` when the range is not fully inside
the buffer (a `DataView` read past either end throws a `RangeError`). -/
def extractBytes (buf : List ℕ) (off : ℤ) (n : ℕ) : Option (List ℕ) :=
  if 0 ≤ off ∧ off + n ≤ buf.length then some ((buf.drop off.toNat).take n) else none

/-- Unsigned little-endian read of `n` bytes. -/
def readLE (buf : List ℕ) (off : ℤ) (n : ℕ) : Option ℕ :=
  (extractBytes buf off n).map leVal

/-- Reinterpret an unsigned `w`-bit value as a two's-complement signed value. -/
def toSigned (w : ℕ) (n : ℕ) : ℤ :=
  if n < 2 ^ (w - 1) then (n : ℤ) else (n : ℤ) - 2 ^ w

/-- Model of `DataView.getUint16(off, true)`. -/
def readU16 (buf : List ℕ) (off : ℤ) : Option ℕ := readLE buf off 2

/-- Model of `DataView.getInt16(off, true)`. -/
def readI16 (buf : List ℕ) (off : ℤ) : Option ℤ :=
  (readLE buf off 2).map (toSigned 16)

/-- Model of `DataView.getInt32(off, true)`. -/
def readI32 (buf : List ℕ) (off : ℤ) : Option ℤ :=
  (readLE buf off 4).map (toSigned 32)

/-- Model of `DataView.getBigUint64(off, true)`. -/
def readU64 (buf : List ℕ) (off : ℤ) : Option ℕ := readLE buf off 8

/-- Model of `ArrayBuffer.slice(s)` (negative `s` counts from the end, clamped). -/
def jsSlice (buf : List ℕ) (s : ℤ) : List ℕ :=
  let l : ℤ := buf.length
  let b : ℤ := if s < 0 then max (l + s) 0 else min s l
  buf.drop b.toNat

/-- Model of `ArrayBuffer.slice(s, e)` (both indices clamped JS-style). -/
def jsSlice2 (buf : List ℕ) (s e : ℤ) : List ℕ :=
  let l : ℤ := buf.length
  let b : ℤ := if s < 0 then max (l + s) 0 else min s l
  let e2 : ℤ := if e < 0 then max (l + e) 0 else min e l
  (buf.drop b.toNat).take (e2 - b).toNat

/-- Model of `TypedArray.set(chunk, ptr)` on a `Uint8Array` viewed as a list:
replaces the bytes at `[ptr, ptr + chunk.length)`, or fails (`RangeError`)
when the target range is not inside the buffer. -/
def writeBytes (out : List ℕ) (ptr : ℤ) (chunk : List ℕ) : Option (List ℕ) :=
  if 0 ≤ ptr ∧ ptr + chunk.length ≤ out.length then
    some (out.take ptr.toNat ++ chunk ++ out.drop (ptr.toNat + chunk.length))
  else none

/-- Little-endian bytes written by `DataView.setUint16(·, w, true)`
(the value is masked to 16 bits). -/
def bytes16 (w : ℕ) : List ℕ := [w % 256, w / 256 % 256]

/-- Little-endian bytes written by `DataView.setInt32(·, v, true)`
(the value is reduced mod `2^32`). -/
def int32Bytes (v : ℤ) : List ℕ :=
  let n := (v % 4294967296).toNat
  [n % 256, n / 256 % 256, n / 65536 % 256, n / 16777216 % 256]

/-! ## JavaScript numbers for the half-float / position pipeline -/

/-- A JavaScript number as it can appear in the position pipeline: NaN, a
signed infinity, or a finite value given as sign and nonnegative magnitude
(keeping the sign separate preserves the signed zeros produced by
`(s ? -1 : 1) * 0`). -/
inductive JSF where
  | nan : JSF
  | inf : Bool → JSF
  | fin : Bool → ℚ → JSF
  deriving DecidableEq

/-- Model of the source function `halfToFloat(h)`: IEEE-754 binary16 decode. -/
def halfToFloat (h : ℕ) : JSF :=
  let s := (h &&& 0x8000) >>> 15
  let e := (h &&& 0x7c00) >>> 10
  let f := h &&& 0x03ff
  if e = 0 then .fin (s = 1) ((2 : ℚ) ^ (-14 : ℤ) * ((f : ℚ) / 2 ^ 10))
  else if e = 0x1f then (if f ≠ 0 then .nan else .inf (s = 1))
  else .fin (s = 1) ((2 : ℚ) ^ ((e : ℤ) - 15) * (1 + (f : ℚ) / 2 ^ 10))

/-- Round a rational to the nearest integer, ties to even (the rounding used
when a JavaScript number is stored into a `Float32Array`). -/
def revenq (q : ℚ) : ℤ :=
  let f := ⌊q⌋
  let r := q - f
  if r < 1 / 2 then f else if 1 / 2 < r then f + 1 else if f % 2 = 0 then f else f + 1

/-- Model of storing a JavaScript number into a `Float32Array` and reading the
bit pattern back through the aliased `Int32Array` (as an unsigned 32-bit
value): round-to-nearest-even conversion to IEEE-754 binary32.  NaN stores the
canonical quiet NaN pattern. -/
def f32bits (v : JSF) : ℕ :=
  match v with
  | .nan => 0x7FC00000
  | .inf s => if s then 0xFF800000 else 0x7F800000
  | .fin s m =>
    let sign := if s then 0x80000000 else 0
    if m = 0 then sign
    else
      let e := Int.log 2 m
      if 127 < e then sign + 0x7F800000
      else
        let eN : ℤ := max e (-126)
        let n := revenq (m * (2 : ℚ) ^ (23 - eN))
        if 2 ^ 24 ≤ n then
          (if 127 < eN + 1 then sign + 0x7F800000
           else sign + (eN + 1 + 127).toNat * 2 ^ 23)
        else if 2 ^ 23 ≤ n then
          sign + (eN + 127).toNat * 2 ^ 23 + (n - 2 ^ 23).toNat
        else sign + n.toNat

/-- Model of the source function `float32ToFloat16(val)`: the value is stored
into a `Float32Array` (`f32bits`) and the binary32 bit pattern is converted to
binary16 by the bit-level algorithm of the source (sign extraction, exponent
rebias by the 103/113/142/255 thresholds, subnormal shift with sticky-style
rounding, mantissa truncation in the normal range). -/
def float32ToFloat16 (val : JSF) : ℕ :=
  let x := f32bits val
  let bits := (x >>> 16) &&& 0x8000
  let m := (x >>> 12) &&& 0x07ff
  let e := (x >>> 23) &&& 0xff
  if e < 103 then bits
  else if 142 < e then
    (if e ≠ 255 then bits ||| 0x7c00
     else bits ||| 0x7c00 ||| (if m ≠ 0 then 1 else 0))
  else if e < 113 then
    let m2 := m ||| 0x0800
    bits ||| ((m2 >>> (114 - e)) + ((m2 >>> (113 - e)) &&& 1))
  else bits ||| ((e - 112) <<< 10) ||| (m >>> 1)

/-! ## Quaternion codec (smallest-three compression)

JavaScript numbers in this pipeline are modelled as real numbers. -/

/-- Model of the source function `parseCompressedQuaternion(v0, v1, v2)`:
decompress three 16-bit words into a quaternion 4-tuple, reconstructing the
omitted component from the unit-length constraint. -/
noncomputable def parseCompressedQuaternion (v0 v1 v2 : ℕ) : ℝ × ℝ × ℝ × ℝ :=
  let scale : ℝ := 1 / 32767
  let maxValue : ℝ := 1.4142135
  let shift : ℝ := 0.70710677
  let missing := (v0 >>> 13) &&& 3
  let signBit := (v0 >>> 15) &&& 1
  let a : ℝ := (((v1 >>> 14) + 4 * (v0 &&& 0x1fff) : ℕ) : ℝ) * scale * maxValue - shift
  let b : ℝ := (((v2 >>> 15) + 2 * (v1 &&& 0x3fff) : ℕ) : ℝ) * scale * maxValue - shift
  let c : ℝ := ((v2 &&& 0x7fff : ℕ) : ℝ) * scale * maxValue - shift
  let dSquared : ℝ := 1 - (a * a + b * b + c * c)
  let d0 : ℝ := if 0 < dSquared then Real.sqrt dSquared else 0
  let d : ℝ := if signBit = 1 then -d0 else d0
  match missing with
  | 0 => (d, a, b, c)
  | 1 => (a, d, b, c)
  | 2 => (a, b, d, c)
  | 3 => (a, b, c, d)
  | _ => (0, 0, 0, 1)

/-- Model of the source function `compressQuaternion(q0, q1, q2, q3)`:
normalize (substituting the identity quaternion for zero-length input), select
the largest-magnitude component (first maximum wins, as in the source loop),
quantize the remaining three components, and pack sign bit, omitted-component
index and the three quantized fields into three 16-bit words. -/
noncomputable def compressQuaternion (q0 q1 q2 q3 : ℝ) : ℕ × ℕ × ℕ :=
  let len0 : ℝ := Real.sqrt (q0 * q0 + q1 * q1 + q2 * q2 + q3 * q3)
  let g : ℝ × ℝ × ℝ × ℝ × ℝ := if len0 = 0 then (0, 0, 0, 1, 1) else (q0, q1, q2, q3, len0)
  let r0 : ℝ := g.1 / g.2.2.2.2
  let r1 : ℝ := g.2.1 / g.2.2.2.2
  let r2 : ℝ := g.2.2.1 / g.2.2.2.2
  let r3 : ℝ := g.2.2.2.1 / g.2.2.2.2
  let m1 : ℕ × ℝ := if |r1| > |r0| then (1, |r1|) else (0, |r0|)
  let m2 : ℕ × ℝ := if |r2| > m1.2 then (2, |r2|) else m1
  let m3 : ℕ × ℝ := if |r3| > m2.2 then (3, |r3|) else m2
  let maxIdx := m3.1
  let sel : ℝ := match maxIdx with
    | 0 => r0
    | 1 => r1
    | 2 => r2
    | _ => r3
  let signBit : ℕ := if sel < 0 then 1 else 0
  let abc : ℝ × ℝ × ℝ :=
    if maxIdx = 0 then (r1, r2, r3)
    else if maxIdx = 1 then (r0, r2, r3)
    else if maxIdx = 2 then (r0, r1, r3)
    else (r0, r1, r2)
  let scale : ℝ := 1 / 32767
  let maxValue : ℝ := 1.4142135
  let shift : ℝ := 0.70710677
  let factor : ℝ := 1 / (scale * maxValue)
  let clampBits : ℝ → ℕ := fun v => (max 0 (min (round ((v + shift) * factor)) 0x7FFF)).toNat
  let aBits := clampBits abc.1
  let bBits := clampBits abc.2.1
  let cBits := clampBits abc.2.2
  let v0 := (signBit <<< 15) ||| (maxIdx <<< 13) ||| (aBits >>> 2)
  let v1 := ((aBits &&& 3) <<< 14) ||| (bBits >>> 1)
  let v2 := ((bBits &&& 1) <<< 15) ||| cBits
  (v0, v1, v2)

/-! ## Data model -/

/-- One decoded bone entry of one frame (`{ boneId, position, rotation }`). -/
structure BoneEntry where
  boneId : ℤ
  position : JSF × JSF × JSF
  rotation : ℝ × ℝ × ℝ × ℝ

/-- One decoded frame (`{ bones }`). -/
structure Frame where
  bones : List BoneEntry

/-- The decoded value returned by `AnimationParser.parse`. -/
structure AnimationData where
  frames : List Frame
  framesCount : ℤ
  bonesCount : ℤ
  boneIds : List ℤ
  trailingData : List ℕ

/-- The mutable fields of the `AnimationParser` instance (the constructor
initializes the two buffers to `null`, numeric fields to `0` and `boneIds` to
an empty array). -/
structure ParserState where
  originalFileBuffer : Option (List ℕ)
  originalHeaderBuffer : Option (List ℕ)
  headerStart : ℤ
  headerEnd : ℤ
  animationDataStart : ℤ
  animationDataEnd : ℤ
  boneIds : List ℤ
  bonesCount : ℤ
  origFramesCount : ℤ
  frameSize : ℤ

/-- Parser state as initialized by the `AnimationParser` constructor. -/
def initState : ParserState :=
  { originalFileBuffer := none
    originalHeaderBuffer := none
    headerStart := 0
    headerEnd := 0
    animationDataStart := 0
    animationDataEnd := 0
    boneIds := []
    bonesCount := 0
    origFramesCount := 0
    frameSize := 0 }

/-- The 8-byte magic constant `this.EXPECTED_HEADER = 457546134634734n`. -/
def MAGIC : ℕ := 457546134634734

/-! ## Decoder (`AnimationParser.parse`) -/

/-- Read the six little-endian `u16` fields of one 12-byte bone record and
decode them (three half-float position components, one compressed rotation). -/
noncomputable def parsePose (buf : List ℕ) (off : ℤ) :
    Option ((JSF × JSF × JSF) × (ℝ × ℝ × ℝ × ℝ)) :=
  match readU16 buf off, readU16 buf (off + 2), readU16 buf (off + 4),
      readU16 buf (off + 6), readU16 buf (off + 8), readU16 buf (off + 10) with
  | some px, some py, some pz, some v0, some v1, some v2 =>
    some ((halfToFloat px, halfToFloat py, halfToFloat pz),
      parseCompressedQuaternion v0 v1 v2)
  | _, _, _, _, _, _ => none

/-- Inner loop of the frame decoder: one `BoneEntry` per id of `ids`, reading
12 bytes each, in order.  Returns the entries and the offset after them. -/
noncomputable def parseFrameBones (buf : List ℕ) :
    ℤ → List ℤ → Option (List BoneEntry × ℤ)
  | off, [] => some ([], off)
  | off, id :: rest =>
    match parsePose buf off with
    | none => none
    | some (pos, rot) =>
      match parseFrameBones buf (off + 12) rest with
      | none => none
      | some (entries, off2) => some (⟨id, pos, rot⟩ :: entries, off2)

/-- Outer loop of the frame decoder: `n` frames, each one pass of
`parseFrameBones` over the bone-id table. -/
noncomputable def parseFrames (buf : List ℕ) (ids : List ℤ) :
    ℕ → ℤ → Option (List Frame × ℤ)
  | 0, off => some ([], off)
  | n + 1, off =>
    match parseFrameBones buf off ids with
    | none => none
    | some (bones, off2) =>
      match parseFrames buf ids n off2 with
      | none => none
      | some (frames, off3) => some (⟨bones⟩ :: frames, off3)

/-- Loop reading the bone-id table: `n` little-endian `i16` values. -/
def readBoneIds (buf : List ℕ) : ℤ → ℕ → Option (List ℤ)
  | _, 0 => some []
  | off, n + 1 =>
    match readI16 buf off with
    | none => none
    | some id =>
      match readBoneIds buf (off + 2) n with
      | none => none
      | some rest => some (id :: rest)

/-- Errors surfaced by the modelled methods: `parseFailed` is the
`"Failed to parse binary file"` rethrow of `parse`; `missingBase` is the
`"Missing Base File header or Animation Data"` throw of `repack`; `fault`
covers every other exception escaping `repack` (out-of-range `DataView`
accesses, negative allocation sizes, reading a property of `undefined`). -/
inductive CodecErr where
  | parseFailed : CodecErr
  | missingBase : CodecErr
  | fault : CodecErr
  deriving DecidableEq

/-- Model of `AnimationParser.parse(arrayBuffer)` (the variant that captures
trailing data).  Returns the decoded `AnimationData` or an error, together
with the instance state after the call; field assignments made before a
thrown exception are kept, as in the source. -/
noncomputable def parseS (st0 : ParserState) (buf : List ℕ) :
    Except CodecErr AnimationData × ParserState :=
  let st1 := { st0 with originalFileBuffer := some buf }
  -- scan loop: for (i = 0; i < byteLength - 8; i++) compare getBigUint64(i)
  let scan := (List.range (buf.length - 8)).find?
    (fun i : ℕ => readU64 buf (i : ℤ) = some MAGIC)
  -- fallback: if not found, compare getBigUint64(0) (throws when len < 8)
  let hs? : Option ℤ :=
    match scan with
    | some i => some (i : ℤ)
    | none =>
      match readU64 buf 0 with
      | some w => if w = MAGIC then some 0 else none
      | none => none
  match hs? with
  | none => (.error .parseFailed, { st1 with headerStart := -1 })
  | some hs =>
    let st2 := { st1 with headerStart := hs }
    match readI16 buf (hs + 8) with
    | none => (.error .parseFailed, st2)
    | some arrayCount =>
      let off1 := hs + 8 + 2 + arrayCount * 8
      match readI32 buf off1 with
      | none => (.error .parseFailed, st2)
      | some framesCount =>
        let st3 := { st2 with origFramesCount := framesCount }
        match readI32 buf (off1 + 4) with
        | none => (.error .parseFailed, st3)
        | some bonesCount =>
          let st4 := { st3 with bonesCount := bonesCount,
                                frameSize := bonesCount * 12, boneIds := [] }
          match readBoneIds buf (off1 + 8) bonesCount.toNat with
          | none => (.error .parseFailed, st4)
          | some ids =>
            let headerEnd := off1 + 8 + 2 * bonesCount.toNat
            let animationDataEnd := headerEnd + framesCount * (bonesCount * 12)
            let st5 := { st4 with
              boneIds := ids
              headerEnd := headerEnd
              animationDataStart := headerEnd
              animationDataEnd := animationDataEnd
              originalHeaderBuffer := some (jsSlice2 buf 0 headerEnd) }
            let trailingData := jsSlice buf animationDataEnd
            match parseFrames buf ids framesCount.toNat headerEnd with
            | none => (.error .parseFailed, st5)
            | some (frames, _) =>
              (.ok { frames := frames
                     framesCount := framesCount
                     bonesCount := bonesCount
                     boneIds := ids
                     trailingData := trailingData }, st5)

/-! ## Encoder (`AnimationParser.repack`) -/

/-- The bone lookup map built by `frame.bones.forEach(b => boneMap[b.boneId] = b)`:
a later entry with the same id overwrites an earlier one. -/
def lookupBone (bones : List BoneEntry) (id : ℤ) : Option BoneEntry :=
  bones.foldl (fun acc b => if b.boneId = id then some b else acc) none

/-- Encode one pose as its 12-byte record: three half-float position words and
the three compressed rotation words, all little-endian. -/
noncomputable def encodePose (pos : JSF × JSF × JSF) (rot : ℝ × ℝ × ℝ × ℝ) : List ℕ :=
  let packed := compressQuaternion rot.1 rot.2.1 rot.2.2.1 rot.2.2.2
  bytes16 (float32ToFloat16 pos.1) ++ bytes16 (float32ToFloat16 pos.2.1) ++
    bytes16 (float32ToFloat16 pos.2.2) ++
    bytes16 packed.1 ++ bytes16 packed.2.1 ++ bytes16 packed.2.2

/-- The 12 bytes `repack` writes for one (frame, bone-id) pair: the frame's
entry for that id, or the identity pose
`{ position: [0,0,0], rotation: [0,0,0,1] }` when the frame has none (also
when the id slot itself is out of range of the bone-id table, in which case
the `boneMap` lookup misses as well). -/
noncomputable def repackBone (fr : Frame) (id? : Option ℤ) : List ℕ :=
  match id? with
  | some id =>
    match lookupBone fr.bones id with
    | some b => encodePose b.position b.rotation
    | none => encodePose (.fin false 0, .fin false 0, .fin false 0) (0, 0, 0, 1)
  | none => encodePose (.fin false 0, .fin false 0, .fin false 0) (0, 0, 0, 1)

/-- One frame's bytes in the repacked body: `bonesCount` records in the order
of the original file's bone-id table. -/
noncomputable def repackFrame (st : ParserState) (fr : Frame) : List ℕ :=
  ((List.range st.bonesCount.toNat).map (fun b => repackBone fr (st.boneIds.get? b))).flatten

/-- The full animation body written by `repack`: the first `framesCount`
frames of `ad.frames`, each encoded by `repackFrame`. -/
noncomputable def repackBody (st : ParserState) (ad : AnimationData) : List ℕ :=
  ((ad.frames.take ad.framesCount.toNat).map (repackFrame st)).flatten

/-- Model of `AnimationParser.repack(animationData)` (the variant whose parse
captured trailing data).  Copies the pre-header prefix and the header from the
original buffer, patches the 4-byte frame count, writes the re-encoded body,
and appends the footer (`animationData.trailingData` when non-empty, otherwise
the original buffer's bytes after `animationDataEnd`). -/
noncomputable def repackE (st : ParserState) (ad : AnimationData) :
    Except CodecErr (List ℕ) :=
  match st.originalFileBuffer with
  | none => .error .missingBase
  | some orig =>
    let framesCount := ad.framesCount
    let bodySize := framesCount * st.frameSize
    let preHeaderSize := st.headerStart
    let headerSize := st.headerEnd - st.headerStart
    let footerBuffer :=
      if ad.trailingData.length > 0 then ad.trailingData
      else jsSlice orig st.animationDataEnd
    let totalSize := preHeaderSize + headerSize + bodySize + footerBuffer.length
    if totalSize < 0 then .error .fault
    else
      let buf0 := List.replicate totalSize.toNat 0
      let step1? :=
        if preHeaderSize > 0 then writeBytes buf0 0 (jsSlice2 orig 0 st.headerStart)
        else some buf0
      let writePtr1 := if preHeaderSize > 0 then preHeaderSize else 0
      match step1? with
      | none => .error .fault
      | some out1 =>
        match writeBytes out1 writePtr1 (jsSlice2 orig st.headerStart st.headerEnd) with
        | none => .error .fault
        | some out2 =>
          match readI16 orig (st.headerStart + 8) with
          | none => .error .fault
          | some arrayCount =>
            let frameCountOffset := writePtr1 + 8 + 2 + arrayCount * 8
            match writeBytes out2 frameCountOffset (int32Bytes framesCount) with
            | none => .error .fault
            | some out3 =>
              let writePtr2 := writePtr1 + headerSize
              -- frames[f] for f < framesCount: accessing a missing frame throws
              if ad.frames.length < framesCount.toNat then .error .fault
              else
                match writeBytes out3 writePtr2 (repackBody st ad) with
                | none => .error .fault
                | some out4 =>
                  let writePtr3 := writePtr2 + (repackBody st ad).length
                  if footerBuffer.length > 0 then
                    match writeBytes out4 writePtr3 footerBuffer with
                    | none => .error .fault
                    | some out5 => .ok out5
                  else .ok out4

/-- Model of `repack` together with the instance state after the call (the
method assigns no instance fields). -/
noncomputable def repackS (st : ParserState) (ad : AnimationData) :
    Except CodecErr (List ℕ) × ParserState :=
  (repackE st ad, st)

/-! ## Trailing-data multiplication of `GLTFHandler.importGLTF` -/

/-- Model of the trailing-data handling block of `GLTFHandler.importGLTF`
(the variant without `gcd`): when an original animation with a positive frame
count is present and the imported frame count exceeds it, the original
trailing bytes are concatenated `ceil(totalFrames / framesCount)` times;
otherwise they are passed through unchanged.  `origTrailing` models
`originalAnimationData.trailingData` (present; JS truthiness of the
`ArrayBuffer` object does not depend on its length). -/
def importGLTFTrailingData (origFrames : ℤ) (origTrailing : List ℕ)
    (totalFrames : ℤ) : List ℕ :=
  if origFrames > 0 ∧ (totalFrames : ℚ) / (origFrames : ℚ) > 1 then
    let multiplier := ⌈(totalFrames : ℚ) / (origFrames : ℚ)⌉
    if multiplier > 1 then (List.replicate multiplier.toNat origTrailing).flatten
    else origTrailing
  else origTrailing

/-! ## Concrete demonstration inputs -/

/-- Renormalization of a quaternion 4-tuple (the operation the spec applies to
the decompressed quaternion before comparing it with the input). -/
noncomputable def renormalize (q : ℝ × ℝ × ℝ × ℝ) : ℝ × ℝ × ℝ × ℝ :=
  let n := Real.sqrt (q.1 * q.1 + q.2.1 * q.2.1 + q.2.2.1 * q.2.2.1 + q.2.2.2 * q.2.2.2)
  (q.1 / n, q.2.1 / n, q.2.2.1 / n, q.2.2.2 / n)

/-- Demonstration file: magic at offset 0, `arrayCount = 0`, 1 frame, 1 bone
with id 7, and one all-zero 12-byte record. -/
def demoBufZeroRecord : List ℕ :=
  [238, 192, 210, 194, 34, 160, 1, 0, 0, 0, 1, 0, 0, 0, 1, 0, 0, 0, 7, 0,
   0, 0, 0, 0, 0, 0, 0, 0, 0, 0, 0, 0]

/-- The `AnimationData` decoded from `demoBufZeroRecord`. -/
noncomputable def demoAdZeroRecord : AnimationData :=
  { frames := [⟨[⟨7, (halfToFloat 0, halfToFloat 0, halfToFloat 0),
      parseCompressedQuaternion 0 0 0⟩]⟩]
    framesCount := 1
    bonesCount := 1
    boneIds := [7]
    trailingData := [] }

/-- The parser state after decoding `demoBufZeroRecord`. -/
def demoStZeroRecord : ParserState :=
  { originalFileBuffer := some demoBufZeroRecord
    originalHeaderBuffer := some (demoBufZeroRecord.take 20)
    headerStart := 0
    headerEnd := 20
    animationDataStart := 20
    animationDataEnd := 32
    boneIds := [7]
    bonesCount := 1
    origFramesCount := 1
    frameSize := 12 }

/-- Demonstration file with no frame records: magic at offset 0,
`arrayCount = 0`, 0 frames, 0 bones, one trailing byte `5`. -/
def demoBufEmptyBody : List ℕ :=
  [238, 192, 210, 194, 34, 160, 1, 0, 0, 0, 0, 0, 0, 0, 0, 0, 0, 0, 5]

/-- The `AnimationData` decoded from `demoBufEmptyBody`. -/
def demoAdEmptyBody : AnimationData :=
  { frames := []
    framesCount := 0
    bonesCount := 0
    boneIds := []
    trailingData := [5] }

/-- The parser state after decoding `demoBufEmptyBody`. -/
def demoStEmptyBody : ParserState :=
  { originalFileBuffer := some demoBufEmptyBody
    originalHeaderBuffer := some (demoBufEmptyBody.take 18)
    headerStart := 0
    headerEnd := 18
    animationDataStart := 18
    animationDataEnd := 18
    boneIds := []
    bonesCount := 0
    origFramesCount := 0
    frameSize := 0 }

/-- Demonstration original file for the trailing-data rule: 10 frames, 0
bones, one trailing byte `9`. -/
def demoBufTenFrames : List ℕ :=
  [238, 192, 210, 194, 34, 160, 1, 0, 0, 0, 10, 0, 0, 0, 0, 0, 0, 0, 9]

/-- The `AnimationData` decoded from `demoBufTenFrames`. -/
def demoAdTenFrames : AnimationData :=
  { frames := List.replicate 10 ⟨[]⟩
    framesCount := 10
    bonesCount := 0
    boneIds := []
    trailingData := [9] }

/-- The parser state after decoding `demoBufTenFrames`. -/
def demoStTenFrames : ParserState :=
  { originalFileBuffer := some demoBufTenFrames
    originalHeaderBuffer := some (demoBufTenFrames.take 18)
    headerStart := 0
    headerEnd := 18
    animationDataStart := 18
    animationDataEnd := 18
    boneIds := []
    bonesCount := 0
    origFramesCount := 10
    frameSize := 0 }

/-- An `AnimationData` grown to 25 frames from `demoAdTenFrames`, with the
trailing data produced by the `importGLTF` multiplication rule. -/
def demoAdGrown : AnimationData :=
  { frames := List.replicate 25 ⟨[]⟩
    framesCount := 25
    bonesCount := 0
    boneIds := []
    trailingData := importGLTFTrailingData 10 [9] 25 }

/-- An `AnimationData` grown to 25 frames from `demoAdTenFrames` that keeps
the original trailing byte unmodified. -/
def demoAdGrownRaw : AnimationData :=
  { frames := List.replicate 25 ⟨[]⟩
    framesCount := 25
    bonesCount := 0
    boneIds := []
    trailingData := [9] }

/-- A 20-byte all-zero buffer (no magic signature anywhere). -/
def demoBufNoMagic : List ℕ := List.replicate 20 0

/-- A trivial `AnimationData` value. -/
def demoAdTrivial : AnimationData :=
  { frames := [], framesCount := 0, bonesCount := 0, boneIds := [], trailingData := [] }

/-- Thirty-seven junk bytes containing no magic signature. -/
def demoJunk37 : List ℕ := List.replicate 37 0

/-- Demonstration file matching the end-to-end scenario of the spec: magic at
offset 0, `arrayCount = 0`, 2 frames, 1 bone with id 5, and two all-zero
12-byte records. -/
def demoBufTwoFrames : List ℕ :=
  [238, 192, 210, 194, 34, 160, 1, 0, 0, 0, 2, 0, 0, 0, 1, 0, 0, 0, 5, 0,
   0, 0, 0, 0, 0, 0, 0, 0, 0, 0, 0, 0,
   0, 0, 0, 0, 0, 0, 0, 0, 0, 0, 0, 0]

/-- The `AnimationData` decoded from `demoBufTwoFrames`. -/
noncomputable def demoAdTwoFrames : AnimationData :=
  { frames :=
      [⟨[⟨5, (halfToFloat 0, halfToFloat 0, halfToFloat 0),
          parseCompressedQuaternion 0 0 0⟩]⟩,
       ⟨[⟨5, (halfToFloat 0, halfToFloat 0, halfToFloat 0),
          parseCompressedQuaternion 0 0 0⟩]⟩]
    framesCount := 2
    bonesCount := 1
    boneIds := [5]
    trailingData := [] }

/-- The parser state after decoding `demoBufTwoFrames`. -/
def demoStTwoFrames : ParserState :=
  { originalFileBuffer := some demoBufTwoFrames
    originalHeaderBuffer := some (demoBufTwoFrames.take 20)
    headerStart := 0
    headerEnd := 20
    animationDataStart := 20
    animationDataEnd := 44
    boneIds := [5]
    bonesCount := 1
    origFramesCount := 2
    frameSize := 12 }

/-! ## Helper lemmas: bit packing -/

theorem lor_small {x y : ℕ} (n : ℕ) (h : y < 2 ^ n) : (x <<< n) ||| y = x * 2 ^ n + y := by
  rw [Nat.shiftLeft_eq, mul_comm x (2 ^ n), ← Nat.mul_add_lt_is_or h x, mul_comm (2 ^ n) x]

theorem and_mask13 (x : ℕ) : x &&& 0x1fff = x % 2 ^ 13 := by
  have h := Nat.and_pow_two_sub_one_eq_mod x 13
  norm_num at h ⊢
  exact h

theorem and_mask14 (x : ℕ) : x &&& 0x3fff = x % 2 ^ 14 := by
  have h := Nat.and_pow_two_sub_one_eq_mod x 14
  norm_num at h ⊢
  exact h

theorem and_mask15 (x : ℕ) : x &&& 0x7fff = x % 2 ^ 15 := by
  have h := Nat.and_pow_two_sub_one_eq_mod x 15
  norm_num at h ⊢
  exact h

theorem and_mask2 (x : ℕ) : x &&& 3 = x % 4 := by
  have h := Nat.and_pow_two_sub_one_eq_mod x 2
  norm_num at h ⊢
  exact h

theorem and_mask1 (x : ℕ) : x &&& 1 = x % 2 := by
  have h := Nat.and_pow_two_sub_one_eq_mod x 1
  norm_num at h ⊢


/-- Packing three quantized fields plus the sign bit and omitted index into the
three 16-bit words, as `compressQuaternion` does, is inverted exactly by the
field extraction that `parseCompressedQuaternion` performs. -/
theorem pack_unpack (s m a b c : ℕ) (hs : s ≤ 1) (hm : m ≤ 3)
    (ha : a ≤ 0x7FFF) (hb : b ≤ 0x7FFF) (hc : c ≤ 0x7FFF) :
    let v0 := (s <<< 15) ||| (m <<< 13) ||| (a >>> 2)
    let v1 := ((a &&& 3) <<< 14) ||| (b >>> 1)
    let v2 := ((b &&& 1) <<< 15) ||| c
    (v0 >>> 13) &&& 3 = m ∧ (v0 >>> 15) &&& 1 = s ∧
      (v1 >>> 14) + 4 * (v0 &&& 0x1fff) = a ∧
      (v2 >>> 15) + 2 * (v1 &&& 0x3fff) = b ∧
      v2 &&& 0x7fff = c ∧ v0 < 2 ^ 16 ∧ v1 < 2 ^ 16 ∧ v2 < 2 ^ 16 := by
  intro v0 v1 v2
  have ha2 : a >>> 2 = a / 4 := by rw [Nat.shiftRight_eq_div_pow]
  have hb1 : b >>> 1 = b / 2 := by rw [Nat.shiftRight_eq_div_pow]
  have hv0 : v0 = s * 2 ^ 15 + (m * 2 ^ 13 + a / 4) := by
    show (s <<< 15) ||| (m <<< 13) ||| (a >>> 2) = _
    rw [Nat.lor_assoc, lor_small 13 (by omega), lor_small 15 (by omega), ha2]
  have hv1 : v1 = a % 4 * 2 ^ 14 + b / 2 := by
    show ((a &&& 3) <<< 14) ||| (b >>> 1) = _
    rw [hb1, and_mask2, lor_small 14 (by omega)]
  have hv2 : v2 = b % 2 * 2 ^ 15 + c := by
    show ((b &&& 1) <<< 15) ||| c = _
    rw [and_mask1, lor_small 15 (by omega)]
  have h13 : v0 >>> 13 = v0 / 2 ^ 13 := Nat.shiftRight_eq_div_pow v0 13
  have h15 : v0 >>> 15 = v0 / 2 ^ 15 := Nat.shiftRight_eq_div_pow v0 15
  have h14 : v1 >>> 14 = v1 / 2 ^ 14 := Nat.shiftRight_eq_div_pow v1 14
  have h15b : v2 >>> 15 = v2 / 2 ^ 15 := Nat.shiftRight_eq_div_pow v2 15
  refine ⟨?_, ?_, ?_, ?_, ?_, ?_, ?_, ?_⟩
  · rw [and_mask2, h13, hv0]; omega
  · rw [and_mask1, h15, hv0]; omega
  · rw [h14, and_mask13, hv0, hv1]; omega
  · rw [h15b, and_mask14, hv1, hv2]; omega
  · rw [and_mask15, hv2]; omega
  · rw [hv0]; omega
  · rw [hv1]; omega
  · rw [hv2]; omega

/-- The clamp `Math.max(0, Math.min(·, 0x7FFF))` always lands in `[0, 0x7FFF]`. -/
theorem clampBits_le (r : ℤ) : (max 0 (min r 0x7FFF)).toNat ≤ 0x7FFF := by
  omega

theorem pack_le (s m a b c : ℕ) (hs : s ≤ 1) (hm : m ≤ 3)
    (ha : a ≤ 0x7FFF) (hb : b ≤ 0x7FFF) (hc : c ≤ 0x7FFF) :
    (s <<< 15) ||| (m <<< 13) ||| (a >>> 2) ≤ 0xFFFF ∧
      ((a &&& 3) <<< 14) ||| (b >>> 1) ≤ 0xFFFF ∧
      ((b &&& 1) <<< 15) ||| c ≤ 0xFFFF := by
  obtain ⟨-, -, -, -, -, h0, h1, h2⟩ := pack_unpack s m a b c hs hm ha hb hc
  refine ⟨?_, ?_, ?_⟩ <;> omega

/-- Round-trip of a 16-bit value through the little-endian bytes written by
`setUint16`. -/
theorem leVal_bytes16 {w : ℕ} (h : w < 2 ^ 16) : leVal (bytes16 w) = w := by
  simp [leVal, bytes16]
  omega

/-- C9: for every real input 4-tuple, including the all-zero quaternion,
`compressQuaternion` is total (it is a function) and returns three values in
`[0, 0xFFFF]`, so each packed word fits a 16-bit field and the following
`setUint16` writes do not truncate (writing and re-reading the word is the
identity). -/
theorem C9_compress_words_in_range (q0 q1 q2 q3 : ℝ) :
    (compressQuaternion q0 q1 q2 q3).1 ≤ 0xFFFF ∧
      (compressQuaternion q0 q1 q2 q3).2.1 ≤ 0xFFFF ∧
      (compressQuaternion q0 q1 q2 q3).2.2 ≤ 0xFFFF ∧
      leVal (bytes16 (compressQuaternion q0 q1 q2 q3).1) =
        (compressQuaternion q0 q1 q2 q3).1 ∧
      leVal (bytes16 (compressQuaternion q0 q1 q2 q3).2.1) =
        (compressQuaternion q0 q1 q2 q3).2.1 ∧
      leVal (bytes16 (compressQuaternion q0 q1 q2 q3).2.2) =
        (compressQuaternion q0 q1 q2 q3).2.2 := by
  have main : (compressQuaternion q0 q1 q2 q3).1 ≤ 0xFFFF ∧
      (compressQuaternion q0 q1 q2 q3).2.1 ≤ 0xFFFF ∧
      (compressQuaternion q0 q1 q2 q3).2.2 ≤ 0xFFFF := by
    simp only [compressQuaternion]
    refine pack_le _ _ _ _ _ ?_ ?_ ?_ ?_ ?_
    · (repeat' split) <;> norm_num
    · (repeat' split) <;> norm_num
    · exact clampBits_le _
    · exact clampBits_le _
    · exact clampBits_le _
  obtain ⟨h1, h2, h3⟩ := main
  exact ⟨h1, h2, h3, leVal_bytes16 (by omega), leVal_bytes16 (by omega),
    leVal_bytes16 (by omega)⟩

/-- C6 (counterexample): after a parse attempt that fails (here: a 20-byte
all-zero buffer with no magic signature, so no successful decode has ever
populated the descriptor state), calling `repack` does not produce the
missing-base error — the failed parse already stored the original buffer, so
the null check passes and `repack` fails later with a range fault instead. -/
theorem C6_counterexample :
    (parseS initState demoBufNoMagic).1 = .error .parseFailed ∧
      (repackS (parseS initState demoBufNoMagic).2 demoAdTrivial).1 = .error .fault ∧
      (CodecErr.fault ≠ CodecErr.missingBase) := by
  refine ⟨rfl, rfl, by simp⟩

/-- C6 (amended): `repack` fails with the missing-base error exactly when the
stored original file buffer is absent; the `AnimationParser` constructor
leaves it absent, and any `parse` call — successful or not — populates it. -/
theorem C6_missing_base_iff (st : ParserState) (ad : AnimationData) :
    (repackS st ad).1 = .error .missingBase ↔ st.originalFileBuffer = none := by
  cases hb : st.originalFileBuffer with
  | none => simp [repackS, repackE, hb]
  | some orig =>
    simp only [repackS, repackE, hb]
    constructor
    · intro h
      exfalso
      revert h
      (repeat' split) <;> simp
    · intro h
      exact absurd h (by simp)

/-! ## Helper lemmas: repack structure -/

theorem writeBytes_eq {out : List ℕ} {ptr : ℤ} {chunk out2 : List ℕ}
    (h : writeBytes out ptr chunk = some out2) :
    0 ≤ ptr ∧ ptr + chunk.length ≤ out.length ∧
      out2 = out.take ptr.toNat ++ chunk ++ out.drop (ptr.toNat + chunk.length) := by
  unfold writeBytes at h
  split at h
  · rename_i hc
    exact ⟨hc.1, hc.2, by injection h with h2; exact h2.symm⟩
  · exact absurd h (by simp)

theorem writeBytes_length {out : List ℕ} {ptr : ℤ} {chunk out2 : List ℕ}
    (h : writeBytes out ptr chunk = some out2) : out2.length = out.length := by
  obtain ⟨h0, hle, heq⟩ := writeBytes_eq h
  subst heq
  simp only [List.length_append, List.length_take, List.length_drop]
  omega

theorem encodePose_length (pos : JSF × JSF × JSF) (rot : ℝ × ℝ × ℝ × ℝ) :
    (encodePose pos rot).length = 12 := by
  simp [encodePose, bytes16]

theorem repackBone_length (fr : Frame) (id? : Option ℤ) :
    (repackBone fr id?).length = 12 := by
  unfold repackBone
  (repeat' split) <;> simp [encodePose_length]

theorem repackFrame_length (st : ParserState) (fr : Frame) :
    (repackFrame st fr).length = 12 * st.bonesCount.toNat := by
  simp only [repackFrame, List.length_flatten, List.map_map]
  have : ((List.range st.bonesCount.toNat).map
      (List.length ∘ fun b => repackBone fr (st.boneIds.get? b))) =
      (List.range st.bonesCount.toNat).map (fun _ => 12) := by
    apply List.map_congr_left
    intro b _
    simp [repackBone_length]
  rw [this, List.map_const']
  simp [List.sum_replicate, smul_eq_mul, Nat.mul_comm]

theorem repackBody_length (st : ParserState) (ad : AnimationData)
    (h : ad.framesCount.toNat ≤ ad.frames.length) :
    (repackBody st ad).length = ad.framesCount.toNat * (12 * st.bonesCount.toNat) := by
  simp only [repackBody, List.length_flatten, List.map_map]
  have hmap : ((ad.frames.take ad.framesCount.toNat).map (List.length ∘ repackFrame st)) =
      (ad.frames.take ad.framesCount.toNat).map (fun _ => 12 * st.bonesCount.toNat) := by
    apply List.map_congr_left
    intro fr _
    simp [repackFrame_length]
  rw [hmap, List.map_const']
  simp [List.sum_replicate, smul_eq_mul, List.length_take]
  left
  omega

/-- Whenever `repack` succeeds and the passed `AnimationData` has non-empty
trailing data (with a consistent descriptor: nonnegative header start,
`frameSize = bonesCount * 12`, nonnegative counts), the output buffer ends
with exactly those trailing bytes. -/
theorem repack_footer_suffix (st : ParserState) (ad : AnimationData) (out : List ℕ)
    (hs0 : 0 ≤ st.headerStart) (hfs : st.frameSize = st.bonesCount * 12)
    (hB : 0 ≤ st.bonesCount) (hF : 0 ≤ ad.framesCount)
    (htrne : ad.trailingData ≠ [])
    (hok : repackE st ad = .ok out) :
    ad.trailingData.length ≤ out.length ∧
      out.drop (out.length - ad.trailingData.length) = ad.trailingData := by
  have hlen : ad.trailingData.length > 0 := List.length_pos.mpr htrne
  cases horig : st.originalFileBuffer with
  | none => simp only [repackE, horig] at hok; exact absurd hok (by simp)
  | some orig =>
    simp only [repackE, horig, gt_iff_lt, hlen, if_pos] at hok
    split at hok
    · exact absurd hok (by simp)
    rename_i htot
    split at hok
    · exact absurd hok (by simp)
    rename_i out1 h1
    split at hok
    · exact absurd hok (by simp)
    rename_i out2 h2
    split at hok
    · exact absurd hok (by simp)
    rename_i arrayCount harr
    split at hok
    · exact absurd hok (by simp)
    rename_i out3 h3
    split at hok
    · exact absurd hok (by simp)
    rename_i hframes
    split at hok
    · exact absurd hok (by simp)
    rename_i out4 h4
    split at hok
    · exact absurd hok (by simp)
    rename_i out5 h5
    injection hok with hout
    subst hout
    -- lengths through the pipeline
    have hl1 : out1.length = (st.headerStart + (st.headerEnd - st.headerStart) +
        ad.framesCount * st.frameSize + (ad.trailingData.length : ℤ)).toNat := by
      split at h1
      · exact (writeBytes_length h1).trans (by simp)
      · injection h1 with h1e; rw [← h1e]; simp
    have hl2 : out2.length = out1.length := writeBytes_length h2
    have hl3 : out3.length = out2.length := writeBytes_length h3
    have hl4 : out4.length = out3.length := writeBytes_length h4
    obtain ⟨hp5, hle5, heq5⟩ := writeBytes_eq h5
    have hbodyLen : ((repackBody st ad).length : ℤ) =
        ad.framesCount * st.frameSize := by
      rw [repackBody_length st ad (by omega)]
      push_cast
      rw [hfs]
      rw [Int.toNat_of_nonneg hF, Int.toNat_of_nonneg hB]
      ring
    have hwp1 : (if st.headerStart > 0 then st.headerStart else 0) = st.headerStart := by
      split <;> omega
    rw [hwp1] at hp5 hle5 heq5
    -- the footer write ends exactly at the end of the buffer
    have hend : (st.headerStart + (st.headerEnd - st.headerStart) +
        ((repackBody st ad).length : ℤ)).toNat + ad.trailingData.length =
        out4.length := by
      rw [hl4, hl3, hl2, hl1, hbodyLen]
      omega
    have hptr : (st.headerStart + (st.headerEnd - st.headerStart) +
        ((repackBody st ad).length : ℤ)) = st.headerStart +
        (st.headerEnd - st.headerStart) + ((repackBody st ad).length : ℤ) := rfl
    subst heq5
    have hdropNil : out4.drop ((st.headerStart + (st.headerEnd - st.headerStart) +
        ((repackBody st ad).length : ℤ)).toNat + ad.trailingData.length) = [] := by
      rw [hend]; simp
    rw [hdropNil, List.append_nil]
    have htk : (out4.take (st.headerStart + (st.headerEnd - st.headerStart) +
        ((repackBody st ad).length : ℤ)).toNat).length =
        (st.headerStart + (st.headerEnd - st.headerStart) +
          ((repackBody st ad).length : ℤ)).toNat := by
      rw [List.length_take]
      omega
    constructor
    · simp only [List.length_append, htk]
      omega
    · simp only [List.length_append, htk]
      have h9 : (st.headerStart + (st.headerEnd - st.headerStart) +
          ((repackBody st ad).length : ℤ)).toNat + ad.trailingData.length -
          ad.trailingData.length = (out4.take (st.headerStart +
          (st.headerEnd - st.headerStart) +
          ((repackBody st ad).length : ℤ)).toNat).length := by
        rw [htk]
        omega
      rw [h9, List.drop_left]

/-- Characterization of the `importGLTF` trailing-data block for a positive
original frame count: the original trailing bytes are repeated
`ceil(totalFrames / framesCount)` times when the frame count grew, and passed
through unchanged otherwise. -/
theorem importGLTFTrailingData_eq (F0 : ℤ) (T : List ℕ) (F : ℤ) (h0 : 0 < F0) :
    importGLTFTrailingData F0 T F =
      if F0 < F then (List.replicate (⌈(F : ℚ) / (F0 : ℚ)⌉).toNat T).flatten
      else T := by
  have hF0Q : (0 : ℚ) < (F0 : ℚ) := by exact_mod_cast h0
  unfold importGLTFTrailingData
  by_cases hlt : F0 < F
  · have hdiv : (1 : ℚ) < (F : ℚ) / (F0 : ℚ) := by
      rw [lt_div_iff₀ hF0Q, one_mul]
      exact_mod_cast hlt
    have hceil : (1 : ℤ) < ⌈(F : ℚ) / (F0 : ℚ)⌉ :=
      Int.lt_ceil.mpr (by exact_mod_cast hdiv)
    rw [if_pos ⟨h0, hdiv⟩, if_pos hceil, if_pos hlt]
  · have hdiv : ¬ ((1 : ℚ) < (F : ℚ) / (F0 : ℚ)) := by
      rw [lt_div_iff₀ hF0Q, one_mul]
      intro hc
      exact hlt (by exact_mod_cast hc)
    rw [if_neg (by intro hc; exact hdiv hc.2), if_neg hlt]

/-- Length of `k` concatenated copies of a byte list. -/
theorem length_flatten_replicate (k : ℕ) (T : List ℕ) :
    ((List.replicate k T).flatten).length = k * T.length := by
  simp [List.length_flatten, List.map_replicate, List.sum_replicate, smul_eq_mul]

/-- C2 (counterexample): the claim fails for `repack` itself.  Repacking an
`AnimationData` whose frame count grew from 10 to 25 while its trailing data
kept the original single byte `[9]` produces a buffer whose footer region is
that byte exactly once — `repack` performs no multiplication, so the footer is
not `ceil(25/10) = 3` concatenated copies. -/
theorem C2_counterexample :
    demoStTenFrames.origFramesCount = 10 ∧ demoAdGrownRaw.framesCount = 25 ∧
      demoAdGrownRaw.trailingData = [9] ∧
      repackE demoStTenFrames demoAdGrownRaw =
        .ok [238, 192, 210, 194, 34, 160, 1, 0, 0, 0, 25, 0, 0, 0, 0, 0, 0, 0, 9] ∧
      ([238, 192, 210, 194, 34, 160, 1, 0, 0, 0, 25, 0, 0, 0, 0, 0, 0, 0, 9] :
        List ℕ).drop (19 - 1) = [9] ∧
      ([9] : List ℕ) ≠ (List.replicate 3 [9]).flatten := by
  exact ⟨rfl, rfl, rfl, rfl, rfl, by simp⟩

/-- C2 (amended): the `ceil` multiplication is performed by the GLTF import
step (`importGLTFTrailingData`), not by `repack`; `repack` appends
`AnimationData.trailingData` verbatim.  For an `AnimationData` whose trailing
data was produced by the import rule from a positive original frame count and
non-empty original trailing bytes, a successful `repack` (with a consistent
descriptor) yields a buffer whose footer region is exactly
`ceil(framesCount / originalFramesCount)` concatenated copies of the original
trailing bytes when the frame count grew (with `ceil ≥ 2`), and exactly one
copy otherwise. -/
theorem C2_trailing_multiplication (st : ParserState) (ad : AnimationData)
    (out : List ℕ) (F0 : ℤ) (T : List ℕ)
    (hF0 : 0 < F0) (hT : T ≠ [])
    (htr : ad.trailingData = importGLTFTrailingData F0 T ad.framesCount)
    (hs0 : 0 ≤ st.headerStart) (hfs : st.frameSize = st.bonesCount * 12)
    (hB : 0 ≤ st.bonesCount) (hF : 0 ≤ ad.framesCount)
    (hok : repackE st ad = .ok out) :
    (F0 < ad.framesCount →
      out.drop (out.length - ad.trailingData.length) =
        (List.replicate (⌈(ad.framesCount : ℚ) / (F0 : ℚ)⌉).toNat T).flatten ∧
      ad.trailingData.length = (⌈(ad.framesCount : ℚ) / (F0 : ℚ)⌉).toNat * T.length ∧
      2 ≤ ⌈(ad.framesCount : ℚ) / (F0 : ℚ)⌉) ∧
    (¬ F0 < ad.framesCount →
      out.drop (out.length - ad.trailingData.length) = T ∧
      ad.trailingData.length = T.length) := by
  rw [importGLTFTrailingData_eq F0 T ad.framesCount hF0] at htr
  by_cases hlt : F0 < ad.framesCount
  · rw [if_pos hlt] at htr
    have hF0Q : (0 : ℚ) < (F0 : ℚ) := by exact_mod_cast hF0
    have hceil : (1 : ℤ) < ⌈(ad.framesCount : ℚ) / (F0 : ℚ)⌉ := by
      apply Int.lt_ceil.mpr
      push_cast
      rw [lt_div_iff₀ hF0Q, one_mul]
      exact_mod_cast hlt
    have htrne : ad.trailingData ≠ [] := by
      rw [htr, ← List.length_pos, length_flatten_replicate]
      have hTpos : 0 < T.length := List.length_pos.mpr hT
      have : 0 < (⌈(ad.framesCount : ℚ) / (F0 : ℚ)⌉).toNat := by omega
      positivity
    obtain ⟨hle, hsuf⟩ := repack_footer_suffix st ad out hs0 hfs hB hF htrne hok
    refine ⟨fun _ => ⟨by rw [hsuf, htr], ?_, by omega⟩, fun hc => absurd hlt hc⟩
    rw [htr, length_flatten_replicate]
  · rw [if_neg hlt] at htr
    have htrne : ad.trailingData ≠ [] := by rw [htr]; exact hT
    obtain ⟨hle, hsuf⟩ := repack_footer_suffix st ad out hs0 hfs hB hF htrne hok
    exact ⟨fun hc => absurd hc hlt, fun _ => ⟨by rw [hsuf, htr], by rw [htr]⟩⟩

/-- C2 (witness): the claim's own example — growing from 10 to 25 frames with
one original trailing byte yields a footer of exactly 3 concatenated copies. -/
theorem C2_trailing_multiplication_witness :
    (0 : ℤ) < 10 ∧ ([9] : List ℕ) ≠ [] ∧
      repackE demoStTenFrames demoAdGrown =
        .ok [238, 192, 210, 194, 34, 160, 1, 0, 0, 0, 25, 0, 0, 0, 0, 0, 0, 0, 9, 9, 9] ∧
      ((10 : ℤ) < demoAdGrown.framesCount →
        ([238, 192, 210, 194, 34, 160, 1, 0, 0, 0, 25, 0, 0, 0, 0, 0, 0, 0,
            9, 9, 9] : List ℕ).drop
          (([238, 192, 210, 194, 34, 160, 1, 0, 0, 0, 25, 0, 0, 0, 0, 0, 0, 0,
            9, 9, 9] : List ℕ).length - demoAdGrown.trailingData.length) =
          (List.replicate (⌈(demoAdGrown.framesCount : ℚ) / ((10 : ℤ) : ℚ)⌉).toNat [9]).flatten ∧
        demoAdGrown.trailingData.length =
          (⌈(demoAdGrown.framesCount : ℚ) / ((10 : ℤ) : ℚ)⌉).toNat * ([9] : List ℕ).length ∧
        2 ≤ ⌈(demoAdGrown.framesCount : ℚ) / ((10 : ℤ) : ℚ)⌉) := by
  have himp : importGLTFTrailingData 10 [9] 25 = [9, 9, 9] := by
    rw [importGLTFTrailingData_eq 10 [9] 25 (by norm_num)]
    rw [if_pos (by norm_num)]
    rw [show (⌈((25 : ℤ) : ℚ) / ((10 : ℤ) : ℚ)⌉) = 3 from by
      push_cast
      rw [Int.ceil_eq_iff]; norm_num]
    decide
  have hok : repackE demoStTenFrames demoAdGrown =
      .ok [238, 192, 210, 194, 34, 160, 1, 0, 0, 0, 25, 0, 0, 0, 0, 0, 0, 0, 9, 9, 9] := by
    have had : demoAdGrown =
        { frames := List.replicate 25 ⟨[]⟩
          framesCount := 25
          bonesCount := 0
          boneIds := []
          trailingData := [9, 9, 9] } := by
      unfold demoAdGrown
      rw [himp]
    rw [had]
    rfl
  refine ⟨by norm_num, by simp, hok, ?_⟩
  have h := C2_trailing_multiplication demoStTenFrames demoAdGrown
    [238, 192, 210, 194, 34, 160, 1, 0, 0, 0, 25, 0, 0, 0, 0, 0, 0, 0, 9, 9, 9]
    10 [9] (by norm_num) (by simp)
    (by show importGLTFTrailingData 10 [9] 25 = importGLTFTrailingData 10 [9] 25; rfl)
    (by norm_num [demoStTenFrames]) (by norm_num [demoStTenFrames])
    (by norm_num [demoStTenFrames]) (by norm_num [demoAdGrown]) hok
  exact h.1

/-! ## Helper lemmas: decoder structure -/

theorem readBoneIds_length {buf : List ℕ} :
    ∀ {off : ℤ} {n : ℕ} {ids : List ℤ}, readBoneIds buf off n = some ids →
      ids.length = n := by
  intro off n
  induction n generalizing off with
  | zero => intro ids h; simp [readBoneIds] at h; simp [← h]
  | succ k ih =>
    intro ids h
    simp only [readBoneIds] at h
    cases hid : readI16 buf off with
    | none => rw [hid] at h; exact absurd h (by simp)
    | some id =>
      rw [hid] at h
      cases hrest : readBoneIds buf (off + 2) k with
      | none => rw [hrest] at h; exact absurd h (by simp)
      | some rest =>
        rw [hrest] at h
        rw [Option.some.injEq] at h
        subst h
        simp [ih hrest]

theorem parseFrameBones_spec {buf : List ℕ} :
    ∀ {ids : List ℤ} {off off2 : ℤ} {entries : List BoneEntry},
      parseFrameBones buf off ids = some (entries, off2) →
      entries.map (·.boneId) = ids ∧ entries.length = ids.length ∧
        off2 = off + 12 * ids.length := by
  intro ids
  induction ids with
  | nil =>
    intro off off2 entries h
    simp only [parseFrameBones] at h
    rw [Option.some.injEq, Prod.mk.injEq] at h
    obtain ⟨ha, hb⟩ := h
    subst ha
    simp [← hb]
  | cons id rest ih =>
    intro off off2 entries h
    simp only [parseFrameBones] at h
    cases hpose : parsePose buf off with
    | none => rw [hpose] at h; exact absurd h (by simp)
    | some pr =>
      rw [hpose] at h
      obtain ⟨pos, rot⟩ := pr
      cases hres : parseFrameBones buf (off + 12) rest with
      | none => rw [hres] at h; exact absurd h (by simp)
      | some res =>
        rw [hres] at h
        obtain ⟨restEntries, off3⟩ := res
        simp only [Option.some.injEq, Prod.mk.injEq] at h
        obtain ⟨ha, hb⟩ := h
        subst ha
        subst hb
        obtain ⟨hm, hl, ho⟩ := ih hres
        refine ⟨by simp [hm], by simp [hl], ?_⟩
        rw [ho]
        simp only [List.length_cons]
        push_cast
        ring

theorem parseFrames_spec {buf : List ℕ} {ids : List ℤ} :
    ∀ {n : ℕ} {off off2 : ℤ} {frames : List Frame},
      parseFrames buf ids n off = some (frames, off2) →
      frames.length = n ∧
        (∀ fr ∈ frames, fr.bones.map (·.boneId) = ids ∧
          fr.bones.length = ids.length) ∧
        off2 = off + n * (12 * ids.length) := by
  intro n
  induction n with
  | zero =>
    intro off off2 frames h
    simp only [parseFrames] at h
    rw [Option.some.injEq, Prod.mk.injEq] at h
    obtain ⟨ha, hb⟩ := h
    subst ha
    simp [← hb]
  | succ k ih =>
    intro off off2 frames h
    simp only [parseFrames] at h
    cases hres1 : parseFrameBones buf off ids with
    | none => rw [hres1] at h; exact absurd h (by simp)
    | some res1 =>
      obtain ⟨bones, offB⟩ := res1
      rw [hres1] at h
      simp only [] at h
      cases hres2 : parseFrames buf ids k offB with
      | none => rw [hres2] at h; exact absurd h (by simp)
      | some res2 =>
        rw [hres2] at h
        obtain ⟨restFrames, offC⟩ := res2
        simp only [Option.some.injEq, Prod.mk.injEq] at h
        obtain ⟨ha, hb⟩ := h
        subst ha
        subst hb
        obtain ⟨hbm, hbl, hbo⟩ := parseFrameBones_spec hres1
        obtain ⟨hfl, hfa, hfo⟩ := ih hres2
        refine ⟨by simp [hfl], ?_, ?_⟩
        · intro fr hfr
          rcases List.mem_cons.mp hfr with hfr | hfr
          · subst hfr
            exact ⟨hbm, hbl⟩
          · exact hfa fr hfr
        · rw [hfo, hbo]
          push_cast
          ring

/-- Inversion of a successful `parse`: the decoded offsets, counts, bone-id
table, frame list and trailing data in terms of the buffer reads. -/
theorem parseS_ok {st0 : ParserState} {buf : List ℕ} {ad : AnimationData}
    {st : ParserState} (h : parseS st0 buf = (.ok ad, st)) :
    ∃ (hs arrayCount : ℤ) (ids : List ℤ) (endOff : ℤ),
      st.originalFileBuffer = some buf ∧
      st.headerStart = hs ∧ 0 ≤ hs ∧
      readI16 buf (hs + 8) = some arrayCount ∧
      readI32 buf (hs + 8 + 2 + arrayCount * 8) = some ad.framesCount ∧
      readI32 buf (hs + 8 + 2 + arrayCount * 8 + 4) = some ad.bonesCount ∧
      readBoneIds buf (hs + 8 + 2 + arrayCount * 8 + 8) ad.bonesCount.toNat =
        some ids ∧
      ad.boneIds = ids ∧ st.boneIds = ids ∧
      st.bonesCount = ad.bonesCount ∧
      st.origFramesCount = ad.framesCount ∧
      st.frameSize = ad.bonesCount * 12 ∧
      st.headerEnd = hs + 8 + 2 + arrayCount * 8 + 8 + 2 * ad.bonesCount.toNat ∧
      st.animationDataEnd = st.headerEnd + ad.framesCount * (ad.bonesCount * 12) ∧
      ad.trailingData = jsSlice buf st.animationDataEnd ∧
      parseFrames buf ids ad.framesCount.toNat st.headerEnd =
        some (ad.frames, endOff) := by
  simp only [parseS] at h
  split at h
  · exact absurd h (by simp)
  rename_i hs hhs
  split at h
  · exact absurd h (by simp)
  rename_i arrayCount harr
  split at h
  · exact absurd h (by simp)
  rename_i framesCount hframes
  split at h
  · exact absurd h (by simp)
  rename_i bonesCount hbones
  split at h
  · exact absurd h (by simp)
  rename_i ids hids
  cases hres : parseFrames buf ids framesCount.toNat
      (hs + 8 + 2 + arrayCount * 8 + 8 + 2 * bonesCount.toNat) with
  | none =>
    rw [hres] at h
    exact absurd h (by simp)
  | some res =>
    rw [hres] at h
    obtain ⟨frames, endOff⟩ := res
    simp only [] at h
    rw [Prod.mk.injEq] at h
    obtain ⟨hok, hst⟩ := h
    injection hok with had
    subst had
    subst hst
    have hhs0 : (0 : ℤ) ≤ hs := by
      split at hhs
      · rename_i i hi
        injection hhs with hv
        omega
      · split at hhs
        · rename_i w hw
          split at hhs
          · injection hhs with hv
            omega
          · exact absurd hhs (by simp)
        · exact absurd hhs (by simp)
    exact ⟨hs, arrayCount, ids, endOff, rfl, rfl, hhs0, harr, hframes, hbones,
      hids, rfl, rfl, rfl, rfl, rfl, rfl, rfl, rfl, hres⟩

/-- C8: whenever decode succeeds with nonnegative decoded frame and bone
counts, the returned `AnimationData` has `frames` of length `framesCount`,
`boneIds` of length `bonesCount`, and every frame holds exactly `bonesCount`
entries whose ids are `boneIds` in the same order. -/
theorem C8_decode_shape (buf : List ℕ) (ad : AnimationData) (st : ParserState)
    (h : parseS initState buf = (.ok ad, st))
    (hF : 0 ≤ ad.framesCount) (hB : 0 ≤ ad.bonesCount) :
    (ad.frames.length : ℤ) = ad.framesCount ∧
      (ad.boneIds.length : ℤ) = ad.bonesCount ∧
      ∀ fr ∈ ad.frames, ((fr.bones.length : ℤ) = ad.bonesCount ∧
        fr.bones.map (·.boneId) = ad.boneIds) := by
  obtain ⟨hs, a, ids, endOff, -, -, -, -, -, -, hids, hadids, -, -, -, -, -, -,
    -, hpf⟩ := parseS_ok h
  obtain ⟨hlen, hall, -⟩ := parseFrames_spec hpf
  have hidlen := readBoneIds_length hids
  refine ⟨?_, ?_, ?_⟩
  · rw [hlen]
    exact_mod_cast Int.toNat_of_nonneg hF
  · rw [hadids, hidlen]
    exact_mod_cast Int.toNat_of_nonneg hB
  · intro fr hfr
    obtain ⟨hm, hl⟩ := hall fr hfr
    constructor
    · rw [hl, hidlen]
      exact_mod_cast Int.toNat_of_nonneg hB
    · rw [hadids]
      exact hm

/-- C8 (witness): the spec's end-to-end scenario — a buffer with
`framesCount = 2`, `bonesCount = 1`, `boneIds = [5]` and two records decodes
to exactly 2 frames of exactly one entry each with bone id 5. -/
theorem C8_decode_shape_witness :
    parseS initState demoBufTwoFrames = (.ok demoAdTwoFrames, demoStTwoFrames) ∧
      0 ≤ demoAdTwoFrames.framesCount ∧ 0 ≤ demoAdTwoFrames.bonesCount ∧
      ((demoAdTwoFrames.frames.length : ℤ) = demoAdTwoFrames.framesCount ∧
        (demoAdTwoFrames.boneIds.length : ℤ) = demoAdTwoFrames.bonesCount ∧
        ∀ fr ∈ demoAdTwoFrames.frames,
          ((fr.bones.length : ℤ) = demoAdTwoFrames.bonesCount ∧
            fr.bones.map (·.boneId) = demoAdTwoFrames.boneIds)) :=
  ⟨rfl, by norm_num [demoAdTwoFrames], by norm_num [demoAdTwoFrames],
    C8_decode_shape demoBufTwoFrames demoAdTwoFrames demoStTwoFrames rfl
      (by norm_num [demoAdTwoFrames]) (by norm_num [demoAdTwoFrames])⟩

/-! ## Helper lemmas: header scan and prefix shifting -/

theorem find?_range_eq_some {p : ℕ → Bool} {n : ℕ} : ∀ {k : ℕ},
    (List.range n).find? p = some k ↔
      k < n ∧ p k = true ∧ ∀ j < k, p j = false := by
  induction n with
  | zero => intro k; simp [List.range_zero]
  | succ m ih =>
    intro k
    rw [List.range_succ, List.find?_append]
    cases hfind : (List.range m).find? p with
    | some k2 =>
      simp only [Option.or_some]
      obtain ⟨hk2, hp2, hall2⟩ := ih.mp hfind
      constructor
      · intro h
        injection h with h
        subst h
        exact ⟨by omega, hp2, hall2⟩
      · rintro ⟨hkn, hpk, hall⟩
        rcases lt_trichotomy k k2 with hlt | heq | hgt
        · exact absurd hpk (by simp [hall2 k hlt])
        · rw [heq]
        · exact absurd hp2 (by simp [hall k2 hgt])
    | none =>
      have hnone := List.find?_eq_none.mp hfind
      simp only [Option.none_or]
      constructor
      · intro h
        rcases hpn : p m with hF | hT
        · rw [List.find?_cons_of_neg _ (by simp [hpn])] at h
          simp at h
        · rw [List.find?_cons_of_pos _ (by simp [hpn])] at h
          injection h with h
          subst h
          refine ⟨by omega, hpn, ?_⟩
          intro j hj
          have := hnone j (List.mem_range.mpr hj)
          simpa using this
      · rintro ⟨hkn, hpk, hall⟩
        have hkm : k = m := by
          by_contra hne
          have hklt : k < m := by omega
          have := hnone k (List.mem_range.mpr hklt)
          simp [hpk] at this
        subst hkm
        rw [List.find?_cons_of_pos _ (by simp [hpk])]

theorem readLE_bounds {buf : List ℕ} {off : ℤ} {n : ℕ} {v : ℕ}
    (h : readLE buf off n = some v) : 0 ≤ off ∧ off + n ≤ buf.length := by
  unfold readLE extractBytes at h
  split at h
  · rename_i hc
    exact hc
  · exact absurd h (by simp)

theorem readI16_bounds {buf : List ℕ} {off : ℤ} {v : ℤ}
    (h : readI16 buf off = some v) : 0 ≤ off ∧ off + 2 ≤ buf.length := by
  unfold readI16 at h
  cases hr : readLE buf off 2 with
  | none => rw [hr] at h; exact absurd h (by simp)
  | some w => exact readLE_bounds hr

theorem readI32_bounds {buf : List ℕ} {off : ℤ} {v : ℤ}
    (h : readI32 buf off = some v) : 0 ≤ off ∧ off + 4 ≤ buf.length := by
  unfold readI32 at h
  cases hr : readLE buf off 4 with
  | none => rw [hr] at h; exact absurd h (by simp)
  | some w => exact readLE_bounds hr

theorem extractBytes_shift (J buf : List ℕ) (off : ℤ) (hoff : 0 ≤ off) (n : ℕ) :
    extractBytes (J ++ buf) ((J.length : ℤ) + off) n = extractBytes buf off n := by
  unfold extractBytes
  have hdrop : (J ++ buf).drop ((J.length : ℤ) + off).toNat = buf.drop off.toNat := by
    have : ((J.length : ℤ) + off).toNat = J.length + off.toNat := by omega
    rw [this, List.drop_append]
  rw [hdrop]
  have hlen : ((J ++ buf).length : ℤ) = J.length + buf.length := by
    simp
  by_cases hin : 0 ≤ off ∧ off + n ≤ (buf.length : ℤ)
  · rw [if_pos hin, if_pos (by rw [hlen]; constructor <;> omega)]
  · rw [if_neg hin, if_neg (by rw [hlen]; intro hc; exact hin ⟨hoff, by omega⟩)]

theorem readLE_shift (J buf : List ℕ) (off : ℤ) (hoff : 0 ≤ off) (n : ℕ) :
    readLE (J ++ buf) ((J.length : ℤ) + off) n = readLE buf off n := by
  unfold readLE
  rw [extractBytes_shift J buf off hoff n]

theorem readU16_shift (J buf : List ℕ) (off : ℤ) (hoff : 0 ≤ off) :
    readU16 (J ++ buf) ((J.length : ℤ) + off) = readU16 buf off :=
  readLE_shift J buf off hoff 2

theorem readI16_shift (J buf : List ℕ) (off : ℤ) (hoff : 0 ≤ off) :
    readI16 (J ++ buf) ((J.length : ℤ) + off) = readI16 buf off := by
  unfold readI16
  rw [readLE_shift J buf off hoff 2]

theorem readI32_shift (J buf : List ℕ) (off : ℤ) (hoff : 0 ≤ off) :
    readI32 (J ++ buf) ((J.length : ℤ) + off) = readI32 buf off := by
  unfold readI32
  rw [readLE_shift J buf off hoff 4]

theorem readU64_shift (J buf : List ℕ) (off : ℤ) (hoff : 0 ≤ off) :
    readU64 (J ++ buf) ((J.length : ℤ) + off) = readU64 buf off :=
  readLE_shift J buf off hoff 8

theorem jsSlice_shift (J buf : List ℕ) (s : ℤ) (hs : 0 ≤ s) :
    jsSlice (J ++ buf) ((J.length : ℤ) + s) = jsSlice buf s := by
  simp only [jsSlice]
  rw [if_neg (by omega : ¬ ((J.length : ℤ) + s < 0)), if_neg (by omega : ¬ (s < 0))]
  have hlen : ((J ++ buf).length : ℤ) = J.length + buf.length := by simp
  rw [hlen]
  have hmin : min ((J.length : ℤ) + s) ((J.length : ℤ) + buf.length) =
      (J.length : ℤ) + min s buf.length := by omega
  rw [hmin]
  have htn : ((J.length : ℤ) + min s (buf.length : ℤ)).toNat =
      J.length + (min s (buf.length : ℤ)).toNat := by omega
  rw [htn, List.drop_append]

theorem parsePose_shift (J buf : List ℕ) (off : ℤ) (hoff : 0 ≤ off) :
    parsePose (J ++ buf) ((J.length : ℤ) + off) = parsePose buf off := by
  unfold parsePose
  have h2 : (J.length : ℤ) + off + 2 = (J.length : ℤ) + (off + 2) := by ring
  have h4 : (J.length : ℤ) + off + 4 = (J.length : ℤ) + (off + 4) := by ring
  have h6 : (J.length : ℤ) + off + 6 = (J.length : ℤ) + (off + 6) := by ring
  have h8 : (J.length : ℤ) + off + 8 = (J.length : ℤ) + (off + 8) := by ring
  have h10 : (J.length : ℤ) + off + 10 = (J.length : ℤ) + (off + 10) := by ring
  rw [h2, h4, h6, h8, h10,
    readU16_shift J buf off hoff, readU16_shift J buf (off + 2) (by omega),
    readU16_shift J buf (off + 4) (by omega), readU16_shift J buf (off + 6) (by omega),
    readU16_shift J buf (off + 8) (by omega), readU16_shift J buf (off + 10) (by omega)]

theorem parseFrameBones_shift (J buf : List ℕ) :
    ∀ (ids : List ℤ) (off : ℤ), 0 ≤ off →
      parseFrameBones (J ++ buf) ((J.length : ℤ) + off) ids =
        (parseFrameBones buf off ids).map
          (fun r => (r.1, (J.length : ℤ) + r.2)) := by
  intro ids
  induction ids with
  | nil => intro off hoff; rfl
  | cons id rest ih =>
    intro off hoff
    simp only [parseFrameBones]
    rw [parsePose_shift J buf off hoff]
    cases hpose : parsePose buf off with
    | none => rfl
    | some pr =>
      obtain ⟨pos, rot⟩ := pr
      simp only []
      have h12 : (J.length : ℤ) + off + 12 = (J.length : ℤ) + (off + 12) := by ring
      rw [h12, ih (off + 12) (by omega)]
      cases hres : parseFrameBones buf (off + 12) rest with
      | none => rfl
      | some res => rfl

theorem parseFrames_shift (J buf : List ℕ) (ids : List ℤ) :
    ∀ (n : ℕ) (off : ℤ), 0 ≤ off →
      parseFrames (J ++ buf) ids n ((J.length : ℤ) + off) =
        (parseFrames buf ids n off).map
          (fun r => (r.1, (J.length : ℤ) + r.2)) := by
  intro n
  induction n with
  | zero => intro off hoff; rfl
  | succ k ih =>
    intro off hoff
    simp only [parseFrames]
    rw [parseFrameBones_shift J buf ids off hoff]
    cases hres : parseFrameBones buf off ids with
    | none => rfl
    | some res =>
      obtain ⟨bones, off2⟩ := res
      simp only [Option.map_some']
      have hoff2 : 0 ≤ off2 := by
        obtain ⟨-, -, ho⟩ := parseFrameBones_spec hres
        omega
      rw [ih off2 hoff2]
      cases hres2 : parseFrames buf ids k off2 with
      | none => rfl
      | some res2 => rfl

theorem readBoneIds_shift (J buf : List ℕ) :
    ∀ (n : ℕ) (off : ℤ), 0 ≤ off →
      readBoneIds (J ++ buf) ((J.length : ℤ) + off) n = readBoneIds buf off n := by
  intro n
  induction n with
  | zero => intro off hoff; rfl
  | succ k ih =>
    intro off hoff
    simp only [readBoneIds]
    rw [readI16_shift J buf off hoff]
    have h2 : (J.length : ℤ) + off + 2 = (J.length : ℤ) + (off + 2) := by ring
    rw [h2, ih (off + 2) (by omega)]

/-- The header locator records the first scan match as `headerStart`,
whatever happens afterwards. -/
theorem scan_first_match (buf : List ℕ) (i : ℕ)
    (h : (List.range (buf.length - 8)).find?
      (fun i : ℕ => readU64 buf (i : ℤ) = some MAGIC) = some i) :
    (parseS initState buf).2.headerStart = i ∧
      readU64 buf (i : ℤ) = some MAGIC ∧
      ∀ j : ℕ, j < i → ¬ (readU64 buf (j : ℤ) = some MAGIC) := by
  obtain ⟨hin, hpi, hall⟩ := find?_range_eq_some.mp h
  refine ⟨?_, by simpa using hpi, fun j hj => by simpa using hall j hj⟩
  simp only [parseS, h]
  (repeat' split) <;> rfl

/-- When the magic constant occurs nowhere (so neither in the scan range nor
at offset 0), `parse` fails. -/
theorem scan_not_found (buf : List ℕ)
    (h : ∀ i : ℕ, ¬ (readU64 buf (i : ℤ) = some MAGIC)) :
    (parseS initState buf).1 = .error .parseFailed := by
  have hnone : (List.range (buf.length - 8)).find?
      (fun i : ℕ => readU64 buf (i : ℤ) = some MAGIC) = none := by
    apply List.find?_eq_none.mpr
    intro j hj
    simp [h j]
  simp only [parseS, hnone]
  cases h0 : readU64 buf 0 with
  | none => rfl
  | some w =>
    have : ¬ (w = MAGIC) := by
      intro hw
      subst hw
      exact h 0 (by exact_mod_cast h0)
    simp only [if_neg this]

theorem parseS_prefix_shift (junk content : List ℕ) (ad : AnimationData)
    (st : ParserState)
    (hc : parseS initState content = (.ok ad, st))
    (h0 : readU64 content 0 = some MAGIC)
    (hF : 0 ≤ ad.framesCount) (hB : 0 ≤ ad.bonesCount)
    (hno : ∀ i : ℕ, i < junk.length →
      ¬ (readU64 (junk ++ content) (i : ℤ) = some MAGIC)) :
    (parseS initState (junk ++ content)).1 = .ok ad ∧
      (parseS initState (junk ++ content)).2.headerStart = junk.length := by
  obtain ⟨hs, arrayCount, ids, endOff, -, hsteq, hhs0, harr, hfr, hbr, hids,
    hadids, -, -, -, -, hhe, hade, htr, hpf⟩ := parseS_ok hc
  -- the content buffer is at least 10 bytes long
  obtain ⟨hoff8, hlen10⟩ := readI16_bounds harr
  have hlen : (10 : ℤ) ≤ content.length := by omega
  -- the scan of the bare content finds offset 0
  have hscan1 : (List.range (content.length - 8)).find?
      (fun i : ℕ => readU64 content (i : ℤ) = some MAGIC) = some 0 := by
    apply find?_range_eq_some.mpr
    refine ⟨by omega, by simpa using h0, by omega⟩
  have hhs00 : st.headerStart = (0 : ℕ) := by
    have := (scan_first_match content 0 hscan1).1
    rw [hc] at this
    exact this
  have hs0 : hs = 0 := by
    rw [hsteq] at hhs00
    exact_mod_cast hhs00
  subst hs0
  -- the scan of the prefixed buffer finds offset junk.length
  have hscan2 : (List.range ((junk ++ content).length - 8)).find?
      (fun i : ℕ => readU64 (junk ++ content) (i : ℤ) = some MAGIC) =
      some junk.length := by
    apply find?_range_eq_some.mpr
    refine ⟨by simp; omega, ?_, fun j hj => by simpa using hno j hj⟩
    have hsh := readU64_shift junk content 0 (by norm_num)
    rw [add_zero] at hsh
    simp [hsh, h0]
  constructor
  · simp only [parseS, hscan2]
    have e1 : (junk.length : ℤ) + 8 = (junk.length : ℤ) + (0 + 8) := by ring
    rw [e1, readI16_shift junk content (0 + 8) (by norm_num), harr]
    simp only []
    have e2 : (junk.length : ℤ) + (0 + 8) + 2 + arrayCount * 8 =
        (junk.length : ℤ) + (0 + 8 + 2 + arrayCount * 8) := by ring
    obtain ⟨hfrnn, -⟩ := readI32_bounds hfr
    rw [e2, readI32_shift junk content (0 + 8 + 2 + arrayCount * 8) hfrnn, hfr]
    simp only []
    have e3 : (junk.length : ℤ) + (0 + 8 + 2 + arrayCount * 8) + 4 =
        (junk.length : ℤ) + (0 + 8 + 2 + arrayCount * 8 + 4) := by ring
    rw [e3, readI32_shift junk content (0 + 8 + 2 + arrayCount * 8 + 4)
      (by omega), hbr]
    simp only []
    have e4 : (junk.length : ℤ) + (0 + 8 + 2 + arrayCount * 8) + 8 =
        (junk.length : ℤ) + (0 + 8 + 2 + arrayCount * 8 + 8) := by ring
    rw [e4, readBoneIds_shift junk content ad.bonesCount.toNat
      (0 + 8 + 2 + arrayCount * 8 + 8) (by omega), hids]
    simp only []
    have e5 : (junk.length : ℤ) + (0 + 8 + 2 + arrayCount * 8 + 8) +
        2 * ad.bonesCount.toNat =
        (junk.length : ℤ) + (0 + 8 + 2 + arrayCount * 8 + 8 +
          2 * ad.bonesCount.toNat) := by ring
    rw [e5, parseFrames_shift junk content ids ad.framesCount.toNat
      (0 + 8 + 2 + arrayCount * 8 + 8 + 2 * ad.bonesCount.toNat) (by omega)]
    rw [← hhe, hpf]
    simp only [Option.map_some']
    have e6 : (junk.length : ℤ) + st.headerEnd +
        ad.framesCount * (ad.bonesCount * 12) =
        (junk.length : ℤ) + st.animationDataEnd := by rw [hade]; ring
    rw [e6, jsSlice_shift junk content st.animationDataEnd
      (by rw [hade, hhe]; positivity), ← htr, ← hadids]
  · exact (scan_first_match (junk ++ content) junk.length hscan2).1

/-- C4: the header locator scans successive offsets from 0 and takes the first
match as `headerStart`; when the magic occurs nowhere it retries offset 0 (per
the model definition) and fails; and a buffer whose first magic occurrence is
at offset 37, preceded by 37 junk bytes, decodes to the same `AnimationData`
as the bare content with the magic at offset 0 (for decodes with nonnegative
counts). -/
theorem C4_header_locator :
    (∀ (buf : List ℕ) (i : ℕ),
      (List.range (buf.length - 8)).find?
        (fun i : ℕ => readU64 buf (i : ℤ) = some MAGIC) = some i →
      (parseS initState buf).2.headerStart = i ∧
        readU64 buf (i : ℤ) = some MAGIC ∧
        ∀ j : ℕ, j < i → ¬ (readU64 buf (j : ℤ) = some MAGIC)) ∧
    (∀ buf : List ℕ, (∀ i : ℕ, ¬ (readU64 buf (i : ℤ) = some MAGIC)) →
      (parseS initState buf).1 = .error .parseFailed) ∧
    (∀ (junk content : List ℕ) (ad : AnimationData) (st : ParserState),
      junk.length = 37 →
      parseS initState content = (.ok ad, st) →
      readU64 content 0 = some MAGIC →
      0 ≤ ad.framesCount → 0 ≤ ad.bonesCount →
      (∀ i : ℕ, i < 37 → ¬ (readU64 (junk ++ content) (i : ℤ) = some MAGIC)) →
      (parseS initState (junk ++ content)).1 = .ok ad ∧
        (parseS initState (junk ++ content)).2.headerStart = 37) := by
  refine ⟨scan_first_match, scan_not_found, ?_⟩
  intro junk content ad st hJ hc h0 hF hB hno
  have h := parseS_prefix_shift junk content ad st hc h0 hF hB
    (fun i hi => hno i (by omega))
  rw [hJ] at h
  exact h

/-- C4 (witness): a concrete 19-byte animation file decodes identically with
and without 37 zero bytes in front of it filling offsets 0 through 36. -/
theorem C4_header_locator_witness :
    demoJunk37.length = 37 ∧
      parseS initState demoBufTenFrames = (.ok demoAdTenFrames, demoStTenFrames) ∧
      readU64 demoBufTenFrames 0 = some MAGIC ∧
      (0 : ℤ) ≤ demoAdTenFrames.framesCount ∧ (0 : ℤ) ≤ demoAdTenFrames.bonesCount ∧
      (∀ i : ℕ, i < 37 →
        ¬ (readU64 (demoJunk37 ++ demoBufTenFrames) (i : ℤ) = some MAGIC)) ∧
      ((parseS initState (demoJunk37 ++ demoBufTenFrames)).1 = .ok demoAdTenFrames ∧
        (parseS initState (demoJunk37 ++ demoBufTenFrames)).2.headerStart = 37) := by
  refine ⟨rfl, rfl, by decide, by norm_num [demoAdTenFrames],
    by norm_num [demoAdTenFrames], by decide, ?_⟩
  exact C4_header_locator.2.2 demoJunk37 demoBufTenFrames demoAdTenFrames
    demoStTenFrames rfl rfl (by decide) (by norm_num [demoAdTenFrames])
    (by norm_num [demoAdTenFrames]) (by decide)

theorem compress_identity : compressQuaternion 0 0 0 1 = (0x7000, 0x2000, 0x4000) := by
  simp only [compressQuaternion]
  norm_num [Real.sqrt_one]
  have hr : round ((330996679037 : ℝ) / 20203050) = 16384 := by
    rw [round_eq]
    norm_num
  rw [hr]
  refine ⟨by decide, by decide, by decide⟩

theorem sqrt_near_one {s : ℝ} (h0 : 0 ≤ s) (h1 : s ≤ 1 / 10000) :
    |Real.sqrt (1 - s) - 1| ≤ 1 / 10000 := by
  have hle : Real.sqrt (1 - s) ≤ 1 := Real.sqrt_le_one.mpr (by linarith)
  have hsq := Real.sq_sqrt (show (0 : ℝ) ≤ 1 - s by linarith)
  have hnn := Real.sqrt_nonneg (1 - s)
  rw [abs_le]
  constructor
  · nlinarith [sq_nonneg (Real.sqrt (1 - s) - 1)]
  · linarith

theorem lookupBone_eq_none {bones : List BoneEntry} {id : ℤ}
    (h : ∀ b ∈ bones, b.boneId ≠ id) : lookupBone bones id = none := by
  unfold lookupBone
  suffices hgen : ∀ acc : Option BoneEntry,
      bones.foldl (fun acc b => if b.boneId = id then some b else acc) acc = acc by
    exact hgen none
  induction bones with
  | nil => intro acc; rfl
  | cons b rest ih =>
    intro acc
    simp only [List.foldl_cons]
    rw [if_neg (h b (List.mem_cons_self b rest))]
    exact ih (fun e he => h e (List.mem_cons_of_mem b he)) acc

theorem float16_zero : float32ToFloat16 (.fin false 0) = 0 := by
  decide

theorem encodePose_identity :
    encodePose (.fin false 0, .fin false 0, .fin false 0) (0, 0, 0, 1) =
      [0, 0, 0, 0, 0, 0, 0x00, 0x70, 0x00, 0x20, 0x00, 0x40] := by
  simp only [encodePose, compress_identity, float16_zero, bytes16]
  norm_num

/-- C5: during repack, a (frame, bone-id) pair with no entry for that id in
the frame is encoded — without failing — as exactly the 12-byte record of the
identity pose `position=(0,0,0)`, `rotation=(0,0,0,1)`, and decoding that
record back gives positions exactly 0 and a rotation within `1e-4` of
`(0,0,0,1)` per component (codec quantization). -/
theorem C5_missing_bone_identity (fr : Frame) (id : ℤ)
    (h : ∀ b ∈ fr.bones, b.boneId ≠ id) :
    repackBone fr (some id) =
      [0, 0, 0, 0, 0, 0, 0x00, 0x70, 0x00, 0x20, 0x00, 0x40] ∧
      halfToFloat (leVal [0, 0]) = .fin false 0 ∧
      (|(parseCompressedQuaternion (leVal [0x00, 0x70]) (leVal [0x00, 0x20])
          (leVal [0x00, 0x40])).1| ≤ 1e-4 ∧
        |(parseCompressedQuaternion (leVal [0x00, 0x70]) (leVal [0x00, 0x20])
          (leVal [0x00, 0x40])).2.1| ≤ 1e-4 ∧
        |(parseCompressedQuaternion (leVal [0x00, 0x70]) (leVal [0x00, 0x20])
          (leVal [0x00, 0x40])).2.2.1| ≤ 1e-4 ∧
        |(parseCompressedQuaternion (leVal [0x00, 0x70]) (leVal [0x00, 0x20])
          (leVal [0x00, 0x40])).2.2.2 - 1| ≤ 1e-4) := by
  refine ⟨?_, by norm_num [halfToFloat, leVal], ?_⟩
  · simp only [repackBone, lookupBone_eq_none h]
    exact encodePose_identity
  · have hv : leVal [0x00, 0x70] = 0x7000 ∧ leVal [0x00, 0x20] = 0x2000 ∧
        leVal [0x00, 0x40] = 0x4000 := by norm_num [leVal]
    rw [hv.1, hv.2.1, hv.2.2]
    simp only [parseCompressedQuaternion]
    norm_num
    rw [show (8192 : ℕ) >>> 14 = 0 from by decide,
      show (28672 : ℕ) &&& 8191 = 4096 from by decide,
      show (16384 : ℕ) >>> 15 = 0 from by decide,
      show (8192 : ℕ) &&& 16383 = 8192 from by decide,
      show (16384 : ℕ) &&& 32767 = 16384 from by decide,
      show (28672 : ℕ) >>> 15 = 0 from by decide]
    push_cast
    refine ⟨?_, ?_, ?_, ?_⟩
    · rw [abs_le]
      constructor <;> norm_num
    · rw [abs_le]
      constructor <;> norm_num
    · rw [abs_le]
      constructor <;> norm_num
    · rw [if_pos (by norm_num)]
      exact sqrt_near_one (by norm_num) (by norm_num)

/-- C5 (witness): a frame with no bone entries and bone id 7. -/
theorem C5_missing_bone_identity_witness :
    (∀ b ∈ (⟨[]⟩ : Frame).bones, b.boneId ≠ 7) ∧
      (repackBone ⟨[]⟩ (some 7) =
        [0, 0, 0, 0, 0, 0, 0x00, 0x70, 0x00, 0x20, 0x00, 0x40] ∧
      halfToFloat (leVal [0, 0]) = .fin false 0 ∧
      (|(parseCompressedQuaternion (leVal [0x00, 0x70]) (leVal [0x00, 0x20])
          (leVal [0x00, 0x40])).1| ≤ 1e-4 ∧
        |(parseCompressedQuaternion (leVal [0x00, 0x70]) (leVal [0x00, 0x20])
          (leVal [0x00, 0x40])).2.1| ≤ 1e-4 ∧
        |(parseCompressedQuaternion (leVal [0x00, 0x70]) (leVal [0x00, 0x20])
          (leVal [0x00, 0x40])).2.2.1| ≤ 1e-4 ∧
        |(parseCompressedQuaternion (leVal [0x00, 0x70]) (leVal [0x00, 0x20])
          (leVal [0x00, 0x40])).2.2.2 - 1| ≤ 1e-4)) :=
  ⟨by simp, C5_missing_bone_identity ⟨[]⟩ 7 (by simp)⟩

/-! ## C1: repack after parse -/

/-- Demonstration file whose single record starts with the half-float NaN
pattern `0x7FFF`: magic at offset 0, `arrayCount = 0`, 1 frame, 1 bone with
id 7, positions `(NaN, 0, 0)` and an all-zero rotation field. -/
def demoBufHalfNaN : List ℕ :=
  [238, 192, 210, 194, 34, 160, 1, 0, 0, 0, 1, 0, 0, 0, 1, 0, 0, 0, 7, 0,
   255, 127, 0, 0, 0, 0, 0, 0, 0, 0, 0, 0]

/-- The `AnimationData` decoded from `demoBufHalfNaN`. -/
noncomputable def demoAdHalfNaN : AnimationData :=
  { frames := [⟨[⟨7, (halfToFloat 0x7FFF, halfToFloat 0, halfToFloat 0),
      parseCompressedQuaternion 0 0 0⟩]⟩]
    framesCount := 1
    bonesCount := 1
    boneIds := [7]
    trailingData := [] }

/-- The parser state after decoding `demoBufHalfNaN`. -/
def demoStHalfNaN : ParserState :=
  { originalFileBuffer := some demoBufHalfNaN
    originalHeaderBuffer := some (demoBufHalfNaN.take 20)
    headerStart := 0
    headerEnd := 20
    animationDataStart := 20
    animationDataEnd := 32
    boneIds := [7]
    bonesCount := 1
    origFramesCount := 1
    frameSize := 12 }

/-- C1 (counterexample): decode-then-repack is not the identity on every
successfully parsed buffer.  A record whose first position word is the
half-float NaN pattern `0x7FFF` decodes to NaN, and re-encoding NaN through
the `Float32Array` store yields the canonical quiet-NaN half `0x7C01`, so the
repacked buffer differs from the original at byte 20 (`0x01` vs `0xFF`). -/
theorem C1_counterexample :
    parseS initState demoBufHalfNaN = (.ok demoAdHalfNaN, demoStHalfNaN) ∧
      repackE demoStHalfNaN demoAdHalfNaN =
        .ok (demoBufHalfNaN.take 20 ++ repackBody demoStHalfNaN demoAdHalfNaN) ∧
      demoBufHalfNaN.take 20 ++ repackBody demoStHalfNaN demoAdHalfNaN ≠
        demoBufHalfNaN := by
  refine ⟨rfl, rfl, ?_⟩
  intro h
  have hL : (List.drop 20 (demoBufHalfNaN.take 20 ++
      repackBody demoStHalfNaN demoAdHalfNaN)).head? = some 1 := rfl
  rw [h] at hL
  exact absurd hL (by decide)

/-! ## Helper lemmas: rebuilding a buffer by successive writes -/

theorem jsSlice_of_nonneg {buf : List ℕ} {s : ℤ} (h0 : 0 ≤ s) :
    jsSlice buf s = buf.drop s.toNat := by
  simp only [jsSlice]
  rw [if_neg (by omega)]
  by_cases hle : s ≤ (buf.length : ℤ)
  · rw [min_eq_left hle]
  · rw [min_eq_right (le_of_not_le hle)]
    rw [List.drop_eq_nil_of_le (by omega), List.drop_eq_nil_of_le (by omega)]

theorem jsSlice2_of_bounds {buf : List ℕ} {s e : ℤ} (h0 : 0 ≤ s) (hse : s ≤ e)
    (heL : e ≤ (buf.length : ℤ)) :
    jsSlice2 buf s e = (buf.drop s.toNat).take (e - s).toNat := by
  simp only [jsSlice2]
  rw [if_neg (by omega), if_neg (by omega), min_eq_left heL,
    min_eq_left (by omega)]

/-- Writing the bytes `[k, k+c)` of `buf` at position `k` into a buffer whose
first `k` bytes are already those of `buf` and whose tail is zero padding
extends the rebuilt prefix to `k + c` bytes. -/
theorem padWrite (buf : List ℕ) (k c : ℕ) (hkc : k + c ≤ buf.length) :
    writeBytes (buf.take k ++ List.replicate (buf.length - k) 0) (k : ℤ)
      ((buf.drop k).take c) =
      some (buf.take (k + c) ++ List.replicate (buf.length - (k + c)) 0) := by
  have hk : k ≤ buf.length := by omega
  have hlen1 : (buf.take k).length = k := by simp; omega
  have hlenc : ((buf.drop k).take c).length = c := by simp; omega
  unfold writeBytes
  rw [if_pos ⟨Int.natCast_nonneg k, by
    simp only [hlenc, List.length_append, hlen1, List.length_replicate]
    push_cast
    omega⟩]
  congr 1
  rw [Int.toNat_natCast, hlenc]
  rw [List.take_append_eq_append_take, List.drop_append_eq_append_drop, hlen1]
  rw [Nat.sub_self, List.take_zero, List.append_nil, List.take_take,
    min_self]
  have hdropA : (List.take k buf).drop (k + c) = [] :=
    List.drop_eq_nil_of_le (by rw [hlen1]; omega)
  rw [hdropA, List.nil_append]
  have hZdrop : (List.replicate (buf.length - k) 0).drop (k + c - k) =
      List.replicate (buf.length - (k + c)) 0 := by
    rw [List.drop_replicate]
    congr 1
    omega
  rw [hZdrop]
  rw [show List.take (k + c) buf = List.take k buf ++ List.take c (List.drop k buf) from by
    rw [← List.take_add]]

/-- Reading `n` bytes out of a zero-padded rebuilt prefix agrees with reading
them from the original buffer as long as the range lies inside the prefix. -/
theorem extract_padded (buf : List ℕ) (k : ℕ) (off : ℤ) (n : ℕ)
    (hoff : 0 ≤ off) (hn : off + n ≤ k) (hk : k ≤ buf.length) :
    extractBytes (buf.take k ++ List.replicate (buf.length - k) 0) off n =
      extractBytes buf off n := by
  unfold extractBytes
  have hlen : (buf.take k ++ List.replicate (buf.length - k) 0).length =
      buf.length := by simp; omega
  rw [hlen]
  by_cases hin : 0 ≤ off ∧ off + (n : ℤ) ≤ (buf.length : ℤ)
  · rw [if_pos hin, if_pos hin]
    congr 1
    rw [List.drop_append_eq_append_drop, List.take_append_eq_append_take]
    have hx : (((buf.take k).drop off.toNat)).length = k - off.toNat := by
      simp; omega
    rw [hx]
    have hn0 : n - (k - off.toNat) = 0 := by omega
    rw [hn0, List.take_zero, List.append_nil]
    rw [List.drop_take, List.take_take, min_eq_left (by omega)]
  · rw [if_neg hin, if_neg hin]

/-- Writing back the bytes just read from a buffer leaves it unchanged. -/
theorem writeBack {out : List ℕ} {off : ℤ} {n : ℕ} {c : List ℕ}
    (h : extractBytes out off n = some c) : writeBytes out off c = some out := by
  unfold extractBytes at h
  split at h
  · rename_i hc
    injection h with hcv
    subst hcv
    have hlen : ((out.drop off.toNat).take n).length = n := by
      simp
      omega
    unfold writeBytes
    rw [if_pos ⟨hc.1, by rw [hlen]; exact hc.2⟩]
    congr 1
    rw [hlen]
    conv_rhs => rw [← List.take_append_drop off.toNat out]
    rw [List.append_assoc]
    congr 1
    conv_rhs => rw [← List.take_append_drop n (out.drop off.toNat)]
    congr 1
    rw [List.drop_drop]
  · exact absurd h (by simp)

/-- The four little-endian bytes written by `setInt32` for a value that was
itself read by `getInt32` are the original four bytes. -/
theorem int32Bytes_leVal {c : List ℕ} (hlen : c.length = 4)
    (hb : ∀ x ∈ c, x < 256) : int32Bytes (toSigned 32 (leVal c)) = c := by
  match c, hlen with
  | [c0, c1, c2, c3], _ =>
    have h0 : c0 < 256 := hb _ (by simp)
    have h1 : c1 < 256 := hb _ (by simp)
    have h2 : c2 < 256 := hb _ (by simp)
    have h3 : c3 < 256 := hb _ (by simp)
    have key : ((toSigned 32 (leVal [c0, c1, c2, c3])) % 4294967296).toNat =
        leVal [c0, c1, c2, c3] := by
      simp only [toSigned, leVal]
      split <;> omega
    simp only [int32Bytes]
    rw [key]
    simp only [leVal]
    refine List.ext_get? ?_
    intro i
    match i with
    | 0 => simp; omega
    | 1 => simp; omega
    | 2 => simp; omega
    | 3 => simp; omega
    | (m + 4) => simp

/-- A successful 12-byte record read ends inside the buffer. -/
theorem parsePose_end_le {buf : List ℕ} {off : ℤ}
    {pr : (JSF × JSF × JSF) × (ℝ × ℝ × ℝ × ℝ)}
    (h : parsePose buf off = some pr) : off + 12 ≤ (buf.length : ℤ) := by
  unfold parsePose at h
  cases h1 : readU16 buf off with
  | none => rw [h1] at h; exact absurd h (by simp)
  | some px =>
  rw [h1] at h
  cases h2 : readU16 buf (off + 2) with
  | none => rw [h2] at h; exact absurd h (by simp)
  | some py =>
  rw [h2] at h
  cases h3 : readU16 buf (off + 4) with
  | none => rw [h3] at h; exact absurd h (by simp)
  | some pz =>
  rw [h3] at h
  cases h4 : readU16 buf (off + 6) with
  | none => rw [h4] at h; exact absurd h (by simp)
  | some v0 =>
  rw [h4] at h
  cases h5 : readU16 buf (off + 8) with
  | none => rw [h5] at h; exact absurd h (by simp)
  | some v1 =>
  rw [h5] at h
  cases h6 : readU16 buf (off + 10) with
  | none => rw [h6] at h; exact absurd h (by simp)
  | some v2 =>
  obtain ⟨-, hb⟩ := readLE_bounds h6
  push_cast at hb
  omega

/-- A successful frame read over a non-empty bone-id table ends inside the
buffer. -/
theorem parseFrameBones_end_le {buf : List ℕ} :
    ∀ {ids : List ℤ} {off off2 : ℤ} {entries : List BoneEntry},
      parseFrameBones buf off ids = some (entries, off2) → ids ≠ [] →
        off2 ≤ (buf.length : ℤ) := by
  intro ids
  induction ids with
  | nil => intro off off2 entries h hne; exact absurd rfl hne
  | cons id rest ih =>
    intro off off2 entries h hne
    simp only [parseFrameBones] at h
    cases hpose : parsePose buf off with
    | none => rw [hpose] at h; exact absurd h (by simp)
    | some pr =>
      rw [hpose] at h
      obtain ⟨pos, rot⟩ := pr
      cases hres : parseFrameBones buf (off + 12) rest with
      | none => rw [hres] at h; exact absurd h (by simp)
      | some res =>
        rw [hres] at h
        obtain ⟨es, off3⟩ := res
        simp only [Option.some.injEq, Prod.mk.injEq] at h
        obtain ⟨ha, hb⟩ := h
        cases rest with
        | nil =>
          have hsp := parseFrameBones_spec hres
          have hoff3 : off3 = off + 12 := by
            have := hsp.2.2
            simpa using this
          have hp := parsePose_end_le hpose
          omega
        | cons id2 rest2 =>
          rw [← hb]
          exact ih hres (by simp)

/-- A successful multi-frame read (with at least one frame and a non-empty
bone-id table) ends inside the buffer. -/
theorem parseFrames_end_le {buf : List ℕ} {ids : List ℤ} :
    ∀ {n : ℕ} {off off2 : ℤ} {frames : List Frame},
      parseFrames buf ids n off = some (frames, off2) → n ≠ 0 → ids ≠ [] →
        off2 ≤ (buf.length : ℤ) := by
  intro n
  induction n with
  | zero => intro off off2 frames h hn hids; exact absurd rfl hn
  | succ k ih =>
    intro off off2 frames h hn hids
    simp only [parseFrames] at h
    cases hres1 : parseFrameBones buf off ids with
    | none => rw [hres1] at h; exact absurd h (by simp)
    | some res1 =>
      obtain ⟨bones, offB⟩ := res1
      rw [hres1] at h
      simp only [] at h
      cases hres2 : parseFrames buf ids k offB with
      | none => rw [hres2] at h; exact absurd h (by simp)
      | some res2 =>
        rw [hres2] at h
        obtain ⟨restFrames, offC⟩ := res2
        simp only [Option.some.injEq, Prod.mk.injEq] at h
        obtain ⟨ha, hb⟩ := h
        cases k with
        | zero =>
          have hsp := parseFrames_spec hres2
          have hoffC : offC = offB := by
            have := hsp.2.2
            simpa using this
          have hbound := parseFrameBones_end_le hres1 hids
          omega
        | succ k2 =>
          rw [← hb]
          exact ih hres2 (by simp) hids

/-- A successful bone-id table read of at least one entry ends inside the
buffer. -/
theorem readBoneIds_end_le {buf : List ℕ} :
    ∀ {off : ℤ} {n : ℕ} {ids : List ℤ},
      readBoneIds buf off n = some ids → n ≠ 0 →
        off + 2 * n ≤ (buf.length : ℤ) := by
  intro off n
  induction n generalizing off with
  | zero => intro ids h hn; exact absurd rfl hn
  | succ k ih =>
    intro ids h hn
    simp only [readBoneIds] at h
    cases hid : readI16 buf off with
    | none => rw [hid] at h; exact absurd h (by simp)
    | some id =>
      rw [hid] at h
      cases hrest : readBoneIds buf (off + 2) k with
      | none => rw [hrest] at h; exact absurd h (by simp)
      | some rest =>
        obtain ⟨-, hb2⟩ := readI16_bounds hid
        cases k with
        | zero => push_cast; omega
        | succ k2 =>
          have := ih hrest (by simp)
          push_cast at this ⊢
          omega

/-- C1 (amended): the full byte-for-byte round-trip identity
`repack(parse(buf)) = buf` holds for every successfully parsed buffer of
genuine bytes (each `< 256`) with nonnegative `arrayCount`, `framesCount` and
`bonesCount`, provided the re-encoded frame body reproduces the original
body region `buf[headerEnd, animationDataEnd)` exactly.  Under these
hypotheses the pre-header prefix, the garbage region, the bone-id table, the
patched frame-count field and the trailing data are all restored verbatim.
(The body-fixed-point hypothesis is necessary: `C1_counterexample` exhibits a
parsed buffer whose re-encoded body differs.) -/
theorem C1_roundtrip (st0 st : ParserState) (buf : List ℕ) (ad : AnimationData)
    (h : parseS st0 buf = (.ok ad, st))
    (hbytes : ∀ b ∈ buf, b < 256)
    (harr0 : ∀ a : ℤ, readI16 buf (st.headerStart + 8) = some a → 0 ≤ a)
    (hF : 0 ≤ ad.framesCount) (hB : 0 ≤ ad.bonesCount)
    (hbody : repackBody st ad = jsSlice2 buf st.headerEnd st.animationDataEnd) :
    repackE st ad = .ok buf := by
  obtain ⟨hs, a, ids, endOff, hfb, hhs, hhs0, hard, hfrd, hbod, hids, hadids,
    hstids, hstB, hstF, hstFS, hstHE, hstADE, htr, hpf⟩ := parseS_ok h
  subst hhs
  have ha0 : 0 ≤ a := harr0 a hard
  obtain ⟨hb1, hb2⟩ := readI16_bounds hard
  obtain ⟨hb3, hb4⟩ := readI32_bounds hfrd
  obtain ⟨hb5, hb6⟩ := readI32_bounds hbod
  have hHE0 : 0 ≤ st.headerEnd := by rw [hstHE]; omega
  have hsHE : st.headerStart ≤ st.headerEnd := by rw [hstHE]; omega
  have hHEL : st.headerEnd ≤ (buf.length : ℤ) := by
    rcases Nat.eq_zero_or_pos ad.bonesCount.toNat with h0 | hpos
    · rw [hstHE, h0]; push_cast; omega
    · have hbb := readBoneIds_end_le hids (by omega)
      rw [hstHE]; push_cast at hbb ⊢; omega
  have hM0 : 0 ≤ ad.framesCount * (ad.bonesCount * 12) :=
    mul_nonneg hF (mul_nonneg hB (by norm_num))
  have hADE0 : 0 ≤ st.animationDataEnd := by rw [hstADE]; linarith
  have hHEADE : st.headerEnd ≤ st.animationDataEnd := by rw [hstADE]; linarith
  have hADEL : st.animationDataEnd ≤ (buf.length : ℤ) := by
    by_cases hz : ad.framesCount = 0 ∨ ad.bonesCount = 0
    · have hzz : ad.framesCount * (ad.bonesCount * 12) = 0 := by
        rcases hz with hz | hz <;> rw [hz] <;> ring
      rw [hstADE, hzz, add_zero]; exact hHEL
    · push_neg at hz
      have hidsne : ids ≠ [] := by
        have hl := readBoneIds_length hids
        intro hc
        rw [hc] at hl
        simp at hl
        omega
      have hFne : ad.framesCount.toNat ≠ 0 := by omega
      have hend := parseFrames_end_le hpf hFne hidsne
      obtain ⟨-, -, hoff2⟩ := parseFrames_spec hpf
      have hl := readBoneIds_length hids
      rw [hstADE]
      have heq : st.headerEnd + ad.framesCount * (ad.bonesCount * 12) = endOff := by
        rw [hoff2, hl]
        have hFt : ((ad.framesCount.toNat : ℕ) : ℤ) = ad.framesCount :=
          Int.toNat_of_nonneg hF
        have hBt : ((ad.bonesCount.toNat : ℕ) : ℤ) = ad.bonesCount :=
          Int.toNat_of_nonneg hB
        rw [hFt, hBt]
        ring
      rw [heq]; exact hend
  have hfoot : ad.trailingData = buf.drop st.animationDataEnd.toNat := by
    rw [htr, jsSlice_of_nonneg hADE0]
  have hfootlen : ((buf.drop st.animationDataEnd.toNat).length : ℤ) =
      (buf.length : ℤ) - st.animationDataEnd := by
    simp only [List.length_drop]
    omega
  simp only [repackE, hfb]
  rw [← htr]
  rw [ite_self]
  rw [hfoot]
  have htot : st.headerStart + (st.headerEnd - st.headerStart) +
      ad.framesCount * st.frameSize +
      ((buf.drop st.animationDataEnd.toNat).length : ℤ) = (buf.length : ℤ) := by
    rw [hstFS]
    linarith [hfootlen, hstADE]
  rw [htot]
  rw [if_neg (by omega)]
  rw [Int.toNat_natCast]
  have hwp1 : (if st.headerStart > 0 then st.headerStart else 0) =
      st.headerStart := by
    split
    · rfl
    · omega
  rw [hwp1]
  have hstep1 : (if st.headerStart > 0 then
        writeBytes (List.replicate buf.length 0) 0 (jsSlice2 buf 0 st.headerStart)
      else some (List.replicate buf.length 0)) =
      some (buf.take st.headerStart.toNat ++
        List.replicate (buf.length - st.headerStart.toNat) 0) := by
    by_cases hpos : st.headerStart > 0
    · rw [if_pos hpos]
      rw [jsSlice2_of_bounds le_rfl hhs0 (by omega)]
      have hp := padWrite buf 0 st.headerStart.toNat (by omega)
      simp only [List.take_zero, List.nil_append, Nat.sub_zero, Nat.zero_add,
        Nat.cast_zero, List.drop_zero] at hp
      norm_num
      exact hp
    · rw [if_neg hpos]
      have h0 : st.headerStart = 0 := by omega
      rw [h0]
      norm_num
  rw [hstep1]
  simp only []
  have hslice : jsSlice2 buf st.headerStart st.headerEnd =
      (buf.drop st.headerStart.toNat).take (st.headerEnd - st.headerStart).toNat :=
    jsSlice2_of_bounds hhs0 hsHE hHEL
  have hw2 := padWrite buf st.headerStart.toNat
    (st.headerEnd - st.headerStart).toNat (by omega)
  rw [Int.toNat_of_nonneg hhs0] at hw2
  have hsum1 : st.headerStart.toNat + (st.headerEnd - st.headerStart).toNat =
      st.headerEnd.toNat := by omega
  rw [hsum1] at hw2
  rw [hslice, hw2]
  simp only []
  rw [hard]
  simp only []
  obtain ⟨c, hc_ext, hc_val⟩ :
      ∃ c, extractBytes buf (st.headerStart + 8 + 2 + a * 8) 4 = some c ∧
        toSigned 32 (leVal c) = ad.framesCount := by
    unfold readI32 readLE at hfrd
    cases he : extractBytes buf (st.headerStart + 8 + 2 + a * 8) 4 with
    | none => rw [he] at hfrd; exact absurd hfrd (by simp)
    | some c =>
      rw [he] at hfrd
      simp only [Option.map_some', Option.some.injEq] at hfrd
      exact ⟨c, rfl, hfrd⟩
  have hc_len : c.length = 4 := by
    unfold extractBytes at hc_ext
    split at hc_ext
    · rename_i hcc
      injection hc_ext with hv
      rw [← hv]
      simp
      omega
    · exact absurd hc_ext (by simp)
  have hc_mem : ∀ x ∈ c, x < 256 := by
    intro x hx
    unfold extractBytes at hc_ext
    split at hc_ext
    · injection hc_ext with hv
      rw [← hv] at hx
      exact hbytes x (List.drop_subset _ _ (List.take_subset _ _ hx))
    · exact absurd hc_ext (by simp)
  have hint : int32Bytes ad.framesCount = c := by
    rw [← hc_val]; exact int32Bytes_leVal hc_len hc_mem
  have hext2 : extractBytes (buf.take st.headerEnd.toNat ++
      List.replicate (buf.length - st.headerEnd.toNat) 0)
      (st.headerStart + 8 + 2 + a * 8) 4 = some c := by
    rw [extract_padded buf st.headerEnd.toNat _ 4 hb3
      (by rw [hstHE]; push_cast; omega) (by omega)]
    exact hc_ext
  have hwb := writeBack hext2
  rw [hint, hwb]
  simp only []
  obtain ⟨hflen, -, -⟩ := parseFrames_spec hpf
  rw [if_neg (by omega)]
  have hptr2 : st.headerStart + (st.headerEnd - st.headerStart) = st.headerEnd := by
    ring
  rw [hptr2]
  have hbody' : repackBody st ad =
      (buf.drop st.headerEnd.toNat).take (st.animationDataEnd - st.headerEnd).toNat := by
    rw [hbody, jsSlice2_of_bounds hHE0 hHEADE hADEL]
  have hw4 := padWrite buf st.headerEnd.toNat
    (st.animationDataEnd - st.headerEnd).toNat (by omega)
  rw [Int.toNat_of_nonneg hHE0] at hw4
  have hsum2 : st.headerEnd.toNat + (st.animationDataEnd - st.headerEnd).toNat =
      st.animationDataEnd.toNat := by omega
  rw [hsum2] at hw4
  rw [hbody', hw4]
  simp only []
  have hblen : ((buf.drop st.headerEnd.toNat).take
      (st.animationDataEnd - st.headerEnd).toNat).length =
      (st.animationDataEnd - st.headerEnd).toNat := by
    simp
    omega
  rw [hblen]
  have hptr3 : st.headerEnd + ((st.animationDataEnd - st.headerEnd).toNat : ℤ) =
      st.animationDataEnd := by omega
  rw [hptr3]
  by_cases hfe : st.animationDataEnd.toNat < buf.length
  · rw [if_pos (by simp only [List.length_drop]; omega)]
    have htk : (buf.drop st.animationDataEnd.toNat).take
        (buf.length - st.animationDataEnd.toNat) =
        buf.drop st.animationDataEnd.toNat := by
      rw [show buf.length - st.animationDataEnd.toNat =
        (buf.drop st.animationDataEnd.toNat).length from by simp]
      exact List.take_length _
    have hw5 := padWrite buf st.animationDataEnd.toNat
      (buf.length - st.animationDataEnd.toNat) (by omega)
    rw [Int.toNat_of_nonneg hADE0, htk] at hw5
    have hsum3 : st.animationDataEnd.toNat +
        (buf.length - st.animationDataEnd.toNat) = buf.length := by omega
    rw [hsum3] at hw5
    rw [hw5]
    simp only []
    simp
  · rw [if_neg (by simp only [List.length_drop]; omega)]
    have hfull : st.animationDataEnd.toNat = buf.length := by omega
    rw [hfull]
    simp

/-- C1 (witness): the empty-body demonstration file — no frame records, one
trailing byte — satisfies all hypotheses (its body region is empty, so the
fixed-point hypothesis is trivial) and repacks to itself. -/
theorem C1_roundtrip_witness :
    parseS initState demoBufEmptyBody = (.ok demoAdEmptyBody, demoStEmptyBody) ∧
      (∀ b ∈ demoBufEmptyBody, b < 256) ∧
      (∀ a : ℤ, readI16 demoBufEmptyBody (demoStEmptyBody.headerStart + 8) =
        some a → 0 ≤ a) ∧
      0 ≤ demoAdEmptyBody.framesCount ∧ 0 ≤ demoAdEmptyBody.bonesCount ∧
      repackBody demoStEmptyBody demoAdEmptyBody =
        jsSlice2 demoBufEmptyBody demoStEmptyBody.headerEnd
          demoStEmptyBody.animationDataEnd ∧
      repackE demoStEmptyBody demoAdEmptyBody = .ok demoBufEmptyBody :=
  ⟨rfl, by decide,
    fun a ha => by
      injection (show some (0 : ℤ) = readI16 demoBufEmptyBody
        (demoStEmptyBody.headerStart + 8) from rfl).trans ha with h2
      omega,
    by decide, by decide, rfl,
    C1_roundtrip initState demoStEmptyBody demoBufEmptyBody demoAdEmptyBody rfl
      (by decide)
      (fun a ha => by
        injection (show some (0 : ℤ) = readI16 demoBufEmptyBody
          (demoStEmptyBody.headerStart + 8) from rfl).trans ha with h2
        omega)
      (by decide) (by decide) rfl⟩

/-! ## C10: repack leaves the parser state and its inputs unchanged -/

/-- C10: `repack` is read-only with respect to the instance state — the
method assigns no instance fields, so the state after the call is the state
before it (every descriptor field unchanged), and a second `repack` on the
state returned by the first call produces the same output buffer. -/
theorem C10_repack_readonly (st : ParserState) (ad : AnimationData) :
    repackS st ad = (repackE st ad, st) ∧
      (repackS st ad).2.originalFileBuffer = st.originalFileBuffer ∧
      (repackS st ad).2.headerStart = st.headerStart ∧
      (repackS st ad).2.headerEnd = st.headerEnd ∧
      (repackS st ad).2.animationDataEnd = st.animationDataEnd ∧
      (repackS st ad).2.boneIds = st.boneIds ∧
      (repackS st ad).2.frameSize = st.frameSize ∧
      (repackS ((repackS st ad).2) ad).1 = (repackS st ad).1 :=
  ⟨rfl, rfl, rfl, rfl, rfl, rfl, rfl, rfl⟩

/-! ## C7: the half-float round trip -/

theorem and_mask8 (x : ℕ) : x &&& 255 = x % 256 := by
  have h := Nat.and_pow_two_sub_one_eq_mod x 8
  norm_num at h ⊢
  exact h

theorem and_mask11 (x : ℕ) : x &&& 2047 = x % 2048 := by
  have h := Nat.and_pow_two_sub_one_eq_mod x 11
  norm_num at h ⊢
  exact h

theorem and_msb (x : ℕ) : x &&& 32768 = x / 32768 % 2 * 32768 := by
  have h := Nat.and_two_pow x 15
  have ht : x.testBit 15 = decide (x / 2 ^ 15 % 2 = 1) := Nat.testBit_to_div_mod
  rw [ht] at h
  norm_num at h
  by_cases hc : x / 32768 % 2 = 1
  · simp only [hc] at h
    norm_num at h
    rw [h, hc, one_mul]
  · simp only [hc] at h
    norm_num at h
    rw [h]
    omega

theorem revenq_le {q : ℚ} {n : ℤ} (h : q ≤ (n : ℚ)) : revenq q ≤ n := by
  have hfl : ⌊q⌋ ≤ n := by
    have := Int.floor_le_floor h
    rwa [Int.floor_intCast] at this
  have hlow : (⌊q⌋ : ℚ) ≤ q := Int.floor_le q
  simp only [revenq]
  split
  · exact hfl
  · split
    · rename_i h1 h2
      -- 1/2 < q - ⌊q⌋, so ⌊q⌋ < n
      have : (⌊q⌋ : ℚ) + 1 / 2 < (n : ℚ) := by linarith
      have : (⌊q⌋ : ℚ) < (n : ℚ) := by linarith
      have : ⌊q⌋ < n := by exact_mod_cast this
      omega
    · split
      · exact hfl
      · rename_i h1 h2 h3
        -- q - ⌊q⌋ = 1/2 exactly
        have : (⌊q⌋ : ℚ) + 1 / 2 ≤ (n : ℚ) := by linarith
        have : (⌊q⌋ : ℚ) < (n : ℚ) := by linarith
        have : ⌊q⌋ < n := by exact_mod_cast this
        omega

theorem revenq_lt_half {q : ℚ} {n : ℤ} (h : q < (n : ℚ) - 1 / 2) : revenq q < n := by
  have hlow : (⌊q⌋ : ℚ) ≤ q := Int.floor_le q
  have hfl : ⌊q⌋ < n := by
    have : (⌊q⌋ : ℚ) < (n : ℚ) := by linarith
    exact_mod_cast this
  simp only [revenq]
  split
  · exact hfl
  · split
    · rename_i h1 h2
      have : (⌊q⌋ : ℚ) + 1 / 2 < (n : ℚ) - 1 / 2 := by linarith
      have : (⌊q⌋ : ℚ) + 1 < (n : ℚ) := by linarith
      have : ⌊q⌋ + 1 < n := by exact_mod_cast this
      omega
    · split
      · exact hfl
      · rename_i h1 h2 h3
        have : (⌊q⌋ : ℚ) + 1 / 2 < (n : ℚ) - 1 / 2 := by linarith
        have : (⌊q⌋ : ℚ) + 1 < (n : ℚ) := by linarith
        have : ⌊q⌋ + 1 < n := by exact_mod_cast this
        omega

theorem revenq_ge_even {q : ℚ} {n : ℤ} (h : (n : ℚ) - 1 / 2 ≤ q)
    (he : n % 2 = 0) : n ≤ revenq q := by
  have hup : q < (⌊q⌋ : ℚ) + 1 := Int.lt_floor_add_one q
  have hfl : n - 1 ≤ ⌊q⌋ := by
    have : (n : ℚ) - 1 < (⌊q⌋ : ℚ) + 1 := by linarith
    have : (n : ℚ) < (⌊q⌋ : ℚ) + 2 := by linarith
    have h2 : n < ⌊q⌋ + 2 := by exact_mod_cast this
    omega
  simp only [revenq]
  split
  · rename_i h1
    -- q - ⌊q⌋ < 1/2: then q < ⌊q⌋ + 1/2, so n - 1/2 < ⌊q⌋ + 1/2, n ≤ ⌊q⌋
    have : (n : ℚ) - 1 / 2 < (⌊q⌋ : ℚ) + 1 / 2 := by linarith
    have : (n : ℚ) < (⌊q⌋ : ℚ) + 1 := by linarith
    have h2 : n < ⌊q⌋ + 1 := by exact_mod_cast this
    omega
  · split
    · omega
    · split
      · rename_i h1 h2 h3
        -- tie with even floor: if ⌊q⌋ = n - 1 then n - 1 is odd since n is even,
        -- contradicting h3; so n ≤ ⌊q⌋
        rcases lt_or_le (⌊q⌋) n with hlt | hle
        · have hq : ⌊q⌋ = n - 1 := by omega
          exfalso
          rw [hq] at h3
          omega
        · exact hle
      · omega

theorem revenq_nonneg {q : ℚ} (h : 0 ≤ q) : 0 ≤ revenq q := by
  have hfl : (0 : ℤ) ≤ ⌊q⌋ + 1 := by
    have := Int.lt_floor_add_one q
    have : (0 : ℚ) < (⌊q⌋ : ℚ) + 1 := by linarith
    exact_mod_cast this.le
  have h0 : -1 ≤ ⌊q⌋ := by omega
  have hlow : (⌊q⌋ : ℚ) ≤ q := Int.floor_le q
  simp only [revenq]
  split
  · rename_i h1
    -- q - ⌊q⌋ < 1/2 and q ≥ 0: ⌊q⌋ > q - 1/2 ≥ -1/2, so ⌊q⌋ ≥ 0
    have : (-1 / 2 : ℚ) < (⌊q⌋ : ℚ) := by linarith
    have : (-1 : ℚ) < (⌊q⌋ : ℚ) := by linarith
    have h2 : (-1 : ℤ) < ⌊q⌋ := by exact_mod_cast this
    omega
  · split
    · omega
    · split
      · rename_i h1 h2 h3
        -- tie: q = ⌊q⌋ + 1/2 ≥ 0 so ⌊q⌋ ≥ -1/2, ⌊q⌋ ≥ 0
        have hr : q - (⌊q⌋ : ℚ) = 1 / 2 := by linarith
        have : (-1 / 2 : ℚ) ≤ (⌊q⌋ : ℚ) := by linarith
        have : (-1 : ℚ) < (⌊q⌋ : ℚ) := by linarith
        have h4 : (-1 : ℤ) < ⌊q⌋ := by exact_mod_cast this
        omega
      · omega

theorem int_log_ge {q : ℚ} {e : ℤ} (h : (2 : ℚ) ^ e ≤ q) : e ≤ Int.log 2 q := by
  have h0 : 0 < q := lt_of_lt_of_le (zpow_pos (by norm_num) e) h
  by_contra hlt
  push_neg at hlt
  have hb : q < ((2 : ℕ) : ℚ) ^ (Int.log 2 q + 1) :=
    Int.lt_zpow_succ_log_self (by norm_num) q
  have hmono : ((2 : ℕ) : ℚ) ^ (Int.log 2 q + 1) ≤ ((2 : ℕ) : ℚ) ^ e :=
    zpow_le_zpow_right₀ (by norm_num) (by omega)
  have hcast : ((2 : ℕ) : ℚ) = (2 : ℚ) := by norm_num
  rw [hcast] at hb hmono
  linarith

theorem int_log_lt {q : ℚ} {e : ℤ} (h0 : 0 < q) (h : q < (2 : ℚ) ^ e) :
    Int.log 2 q < e := by
  by_contra hge
  push_neg at hge
  have ha : ((2 : ℕ) : ℚ) ^ Int.log 2 q ≤ q := Int.zpow_log_le_self (by norm_num) h0
  have hmono : ((2 : ℕ) : ℚ) ^ e ≤ ((2 : ℕ) : ℚ) ^ Int.log 2 q :=
    zpow_le_zpow_right₀ (by norm_num) hge
  have hcast : ((2 : ℕ) : ℚ) = (2 : ℚ) := by norm_num
  rw [hcast] at ha hmono
  linarith

/-- Pin `Int.log 2` of a positive rational from a bracketing pair of powers. -/
theorem int_log_eq {q : ℚ} {e : ℤ} (h0 : 0 < q) (h1 : (2 : ℚ) ^ e ≤ q)
    (h2 : q < (2 : ℚ) ^ (e + 1)) : Int.log 2 q = e := by
  have hge := int_log_ge h1
  have hlt := int_log_lt h0 h2
  omega

/-- Storing a tiny value (below the rounding threshold of the smallest half
subnormal) into a `Float32Array` produces a bit pattern whose exponent field
is below 103. -/
theorem f32bits_small {s : Bool} {q : ℚ} (h0 : 0 ≤ q)
    (h1 : q < 1 / 16777216 - 1 / 562949953421312) :
    ∃ v : ℕ, f32bits (.fin s q) = (if s then 2147483648 else 0) + v ∧
      v < 864026624 := by
  rcases eq_or_lt_of_le h0 with hq0 | hq0
  · refine ⟨0, ?_, by norm_num⟩
    simp only [f32bits]
    rw [if_pos hq0.symm, Nat.add_zero]
  · have hqlt : q < (2 : ℚ) ^ (-24 : ℤ) := by
      calc q < 1 / 16777216 - 1 / 562949953421312 := h1
        _ < (2 : ℚ) ^ (-24 : ℤ) := by norm_num
    simp only [f32bits]
    rw [if_neg (ne_of_gt hq0)]
    have hloglt : Int.log 2 q < -24 := int_log_lt hq0 hqlt
    have hle25 : Int.log 2 q ≤ -25 := by omega
    rw [if_neg (by omega)]
    have hqe1 : q < ((2 : ℕ) : ℚ) ^ (Int.log 2 q + 1) :=
      Int.lt_zpow_succ_log_self (by norm_num) q
    have hcast : ((2 : ℕ) : ℚ) = (2 : ℚ) := by norm_num
    rw [hcast] at hqe1
    by_cases hcase : -126 ≤ Int.log 2 q
    · rw [max_eq_left hcase]
      have hxle : q * 2 ^ ((23 : ℤ) - Int.log 2 q) ≤ ((16777216 : ℤ) : ℚ) := by
        have hstep : q * 2 ^ ((23 : ℤ) - Int.log 2 q) <
            2 ^ (Int.log 2 q + 1) * 2 ^ ((23 : ℤ) - Int.log 2 q) :=
          mul_lt_mul_of_pos_right hqe1 (by positivity)
        have hcomb : (2 : ℚ) ^ (Int.log 2 q + 1) * 2 ^ ((23 : ℤ) - Int.log 2 q) =
            2 ^ (24 : ℤ) := by
          rw [← zpow_add₀ (by norm_num : (2 : ℚ) ≠ 0)]
          congr 1
          ring
        rw [hcomb] at hstep
        have : ((2 : ℚ)) ^ (24 : ℤ) = ((16777216 : ℤ) : ℚ) := by norm_num
        linarith [hstep, this.le, this.ge]
      have hnle := revenq_le hxle
      by_cases h24 : (2 : ℤ) ^ 24 ≤ revenq (q * 2 ^ ((23 : ℤ) - Int.log 2 q))
      · -- n = 2^24: only possible when log ≤ -26 (the sharp bound rules out -25)
        have hne25 : Int.log 2 q ≠ -25 := by
          intro he25
          have hxlt : q * 2 ^ ((23 : ℤ) - Int.log 2 q) < ((16777216 : ℤ) : ℚ) - 1 / 2 := by
            rw [he25]
            have hmul : q * 2 ^ ((23 : ℤ) - (-25 : ℤ)) <
                (1 / 16777216 - 1 / 562949953421312) * 2 ^ ((23 : ℤ) - (-25 : ℤ)) :=
              mul_lt_mul_of_pos_right h1 (by positivity)
            have hval : ((1 : ℚ) / 16777216 - 1 / 562949953421312) *
                2 ^ ((23 : ℤ) - (-25 : ℤ)) = 16777216 - 1 / 2 := by
              norm_num
            rw [hval] at hmul
            push_cast
            linarith
          have := revenq_lt_half hxlt
          omega
        have hle26 : Int.log 2 q ≤ -26 := by omega
        rw [if_pos h24, if_neg (by omega)]
        refine ⟨(Int.log 2 q + 1 + 127).toNat * 2 ^ 23, rfl, ?_⟩
        have ht : (Int.log 2 q + 1 + 127).toNat ≤ 102 := by omega
        omega
      · rw [if_neg h24]
        by_cases h23 : (2 : ℤ) ^ 23 ≤ revenq (q * 2 ^ ((23 : ℤ) - Int.log 2 q))
        · rw [if_pos h23]
          refine ⟨(Int.log 2 q + 127).toNat * 2 ^ 23 +
            (revenq (q * 2 ^ ((23 : ℤ) - Int.log 2 q)) - 2 ^ 23).toNat, ?_, ?_⟩
          · rw [Nat.add_assoc]
          · have ht : (Int.log 2 q + 127).toNat ≤ 102 := by omega
            have hm : (revenq (q * 2 ^ ((23 : ℤ) - Int.log 2 q)) - 2 ^ 23).toNat <
                8388608 := by omega
            omega
        · rw [if_neg h23]
          refine ⟨(revenq (q * 2 ^ ((23 : ℤ) - Int.log 2 q))).toNat, rfl, by omega⟩
    · rw [max_eq_right (by omega)]
      have hxle : q * 2 ^ ((23 : ℤ) - (-126 : ℤ)) ≤ ((8388608 : ℤ) : ℚ) := by
        have hq2 : q < (2 : ℚ) ^ (-126 : ℤ) := by
          calc q < (2 : ℚ) ^ (Int.log 2 q + 1) := hqe1
            _ ≤ (2 : ℚ) ^ (-126 : ℤ) :=
              zpow_le_zpow_right₀ (by norm_num) (by omega)
        have hstep : q * 2 ^ ((23 : ℤ) - (-126 : ℤ)) <
            2 ^ (-126 : ℤ) * 2 ^ ((23 : ℤ) - (-126 : ℤ)) :=
          mul_lt_mul_of_pos_right hq2 (by positivity)
        have hcomb : (2 : ℚ) ^ (-126 : ℤ) * 2 ^ ((23 : ℤ) - (-126 : ℤ)) =
            2 ^ (23 : ℤ) := by
          rw [← zpow_add₀ (by norm_num : (2 : ℚ) ≠ 0)]
          norm_num
        rw [hcomb] at hstep
        have : ((2 : ℚ)) ^ (23 : ℤ) = ((8388608 : ℤ) : ℚ) := by norm_num
        linarith [hstep, this.le, this.ge]
      have hnle := revenq_le hxle
      rw [if_neg (by omega)]
      by_cases h23 : (2 : ℤ) ^ 23 ≤ revenq (q * 2 ^ ((23 : ℤ) - (-126 : ℤ)))
      · rw [if_pos h23]
        refine ⟨(-126 + 127 + 0 : ℤ).toNat * 2 ^ 23 +
          (revenq (q * 2 ^ ((23 : ℤ) - (-126 : ℤ))) - 2 ^ 23).toNat, ?_, by omega⟩
        rw [Nat.add_assoc]
        norm_num
      · rw [if_neg h23]
        have hnn := revenq_nonneg (show (0 : ℚ) ≤ q * 2 ^ ((23 : ℤ) - (-126 : ℤ)) by positivity)
        refine ⟨(revenq (q * 2 ^ ((23 : ℤ) - (-126 : ℤ)))).toNat, rfl, by omega⟩

/-- Decoding after encoding a tiny value yields a signed zero. -/
theorem half_of_small {s : Bool} {q : ℚ} (h0 : 0 ≤ q)
    (h1 : q < 1 / 16777216 - 1 / 562949953421312) :
    halfToFloat (float32ToFloat16 (.fin s q)) = .fin s 0 := by
  obtain ⟨v, hv, hvlt⟩ := @f32bits_small s q h0 h1
  have hx : float32ToFloat16 (.fin s q) = if s then 32768 else 0 := by
    simp only [float32ToFloat16, hv]
    have he : (((if s = true then 2147483648 else 0) + v) >>> 23) &&& 255 =
        v / 8388608 := by
      rw [Nat.shiftRight_eq_div_pow, and_mask8]
      cases s <;> simp <;> omega
    have hb : (((if s = true then 2147483648 else 0) + v) >>> 16) &&& 32768 =
        if s = true then 32768 else 0 := by
      rw [Nat.shiftRight_eq_div_pow, and_msb]
      cases s <;> simp <;> omega
    rw [he, hb]
    rw [if_pos (by omega)]
  have h0fin : halfToFloat 0 = .fin false 0 := by norm_num [halfToFloat]
  have h32fin : halfToFloat 32768 = .fin true 0 := by
    simp only [halfToFloat]
    rw [show ((32768 &&& 32768) >>> 15 : ℕ) = 1 from by decide,
      show ((32768 &&& 31744) >>> 10 : ℕ) = 0 from by decide,
      show ((32768 &&& 1023 : ℕ)) = 0 from by decide]
    norm_num
  rw [hx]
  cases s
  · simpa using h0fin
  · simpa using h32fin

/-- Storing a value at or above the float32 rounding threshold of `2^16` into
a `Float32Array` produces a bit pattern whose exponent field is at least 143;
the all-ones exponent occurs only with a zero stored mantissa field. -/
theorem f32bits_big {s : Bool} {q : ℚ} (h1 : 65536 - 1 / 512 ≤ q) :
    ∃ v : ℕ, f32bits (.fin s q) = (if s then 2147483648 else 0) + v ∧
      ((1199570944 ≤ v ∧ v < 2139095040) ∨ v = 2139095040) := by
  have hq0 : (0 : ℚ) < q := lt_of_lt_of_le (by norm_num) h1
  have he15 : 15 ≤ Int.log 2 q := int_log_ge (le_trans (by norm_num) h1)
  simp only [f32bits]
  rw [if_neg (ne_of_gt hq0)]
  by_cases h127 : 127 < Int.log 2 q
  · rw [if_pos h127]
    exact ⟨2139095040, rfl, Or.inr rfl⟩
  · rw [if_neg h127]
    rw [max_eq_left (by omega)]
    have hqe : ((2 : ℕ) : ℚ) ^ Int.log 2 q ≤ q := Int.zpow_log_le_self (by norm_num) hq0
    have hqe1 : q < ((2 : ℕ) : ℚ) ^ (Int.log 2 q + 1) :=
      Int.lt_zpow_succ_log_self (by norm_num) q
    have hcast : ((2 : ℕ) : ℚ) = (2 : ℚ) := by norm_num
    rw [hcast] at hqe hqe1
    have hxle : q * 2 ^ ((23 : ℤ) - Int.log 2 q) ≤ ((16777216 : ℤ) : ℚ) := by
      have hstep : q * 2 ^ ((23 : ℤ) - Int.log 2 q) <
          2 ^ (Int.log 2 q + 1) * 2 ^ ((23 : ℤ) - Int.log 2 q) :=
        mul_lt_mul_of_pos_right hqe1 (by positivity)
      have hcomb : (2 : ℚ) ^ (Int.log 2 q + 1) * 2 ^ ((23 : ℤ) - Int.log 2 q) =
          2 ^ (24 : ℤ) := by
        rw [← zpow_add₀ (by norm_num : (2 : ℚ) ≠ 0)]
        congr 1
        ring
      rw [hcomb] at hstep
      have : ((2 : ℚ)) ^ (24 : ℤ) = ((16777216 : ℤ) : ℚ) := by norm_num
      linarith [hstep, this.le, this.ge]
    have hnle := revenq_le hxle
    by_cases he15' : Int.log 2 q = 15
    · have hxge : ((16777216 : ℤ) : ℚ) - 1 / 2 ≤ q * 2 ^ ((23 : ℤ) - Int.log 2 q) := by
        rw [he15']
        have hmul : (65536 - 1 / 512 : ℚ) * 2 ^ ((23 : ℤ) - (15 : ℤ)) ≤
            q * 2 ^ ((23 : ℤ) - (15 : ℤ)) :=
          mul_le_mul_of_nonneg_right h1 (by positivity)
        have hval : ((65536 : ℚ) - 1 / 512) * 2 ^ ((23 : ℤ) - (15 : ℤ)) =
            16777216 - 1 / 2 := by norm_num
        rw [hval] at hmul
        push_cast
        linarith
      have hnge := revenq_ge_even hxge (by norm_num)
      rw [if_pos (by omega : (2 : ℤ) ^ 24 ≤ revenq (q * 2 ^ ((23 : ℤ) - Int.log 2 q)))]
      rw [if_neg (by omega)]
      refine ⟨(Int.log 2 q + 1 + 127).toNat * 2 ^ 23, rfl, Or.inl ⟨?_, ?_⟩⟩
      · omega
      · omega
    · have he16 : 16 ≤ Int.log 2 q := by omega
      have hxge : ((8388608 : ℤ) : ℚ) ≤ q * 2 ^ ((23 : ℤ) - Int.log 2 q) := by
        have hmul : (2 : ℚ) ^ Int.log 2 q * 2 ^ ((23 : ℤ) - Int.log 2 q) ≤
            q * 2 ^ ((23 : ℤ) - Int.log 2 q) :=
          mul_le_mul_of_nonneg_right hqe (by positivity)
        have hcomb : (2 : ℚ) ^ Int.log 2 q * 2 ^ ((23 : ℤ) - Int.log 2 q) =
            2 ^ (23 : ℤ) := by
          rw [← zpow_add₀ (by norm_num : (2 : ℚ) ≠ 0)]
          congr 1
          ring
        rw [hcomb] at hmul
        have : ((2 : ℚ)) ^ (23 : ℤ) = ((8388608 : ℤ) : ℚ) := by norm_num
        linarith [hmul, this.le, this.ge]
      have hnge := revenq_ge_even (le_trans (by norm_num) hxge)
        (show (8388608 : ℤ) % 2 = 0 by norm_num)
      by_cases h24 : (2 : ℤ) ^ 24 ≤ revenq (q * 2 ^ ((23 : ℤ) - Int.log 2 q))
      · rw [if_pos h24]
        by_cases h128 : 127 < Int.log 2 q + 1
        · rw [if_pos h128]
          exact ⟨2139095040, rfl, Or.inr rfl⟩
        · rw [if_neg h128]
          refine ⟨(Int.log 2 q + 1 + 127).toNat * 2 ^ 23, rfl, Or.inl ⟨?_, ?_⟩⟩
          · have ht : 144 ≤ (Int.log 2 q + 1 + 127).toNat := by omega
            omega
          · have ht : (Int.log 2 q + 1 + 127).toNat ≤ 254 := by omega
            omega
      · rw [if_neg h24]
        rw [if_pos (by omega : (2 : ℤ) ^ 23 ≤ revenq (q * 2 ^ ((23 : ℤ) - Int.log 2 q)))]
        refine ⟨(Int.log 2 q + 127).toNat * 2 ^ 23 +
          (revenq (q * 2 ^ ((23 : ℤ) - Int.log 2 q)) - 2 ^ 23).toNat, ?_, Or.inl ⟨?_, ?_⟩⟩
        · rw [Nat.add_assoc]
        · have ht : 143 ≤ (Int.log 2 q + 127).toNat := by omega
          omega
        · have ht : (Int.log 2 q + 127).toNat ≤ 254 := by omega
          have hm : (revenq (q * 2 ^ ((23 : ℤ) - Int.log 2 q)) - 2 ^ 23).toNat <
              8388608 := by omega
          omega

/-- Decoding after encoding a value at or above the saturation threshold
yields a signed infinity. -/
theorem half_of_big {s : Bool} {q : ℚ} (h1 : 65536 - 1 / 512 ≤ q) :
    halfToFloat (float32ToFloat16 (.fin s q)) = .inf s := by
  obtain ⟨v, hv, hrange⟩ := @f32bits_big s q h1
  have hvle : v ≤ 2139095040 := by rcases hrange with ⟨-, h⟩ | h <;> omega
  have he : (((if s = true then 2147483648 else 0) + v) >>> 23) &&& 255 =
      v / 8388608 := by
    rw [Nat.shiftRight_eq_div_pow, and_mask8]
    cases s <;> simp <;> omega
  have hb : (((if s = true then 2147483648 else 0) + v) >>> 16) &&& 32768 =
      if s = true then 32768 else 0 := by
    rw [Nat.shiftRight_eq_div_pow, and_msb]
    cases s <;> simp <;> omega
  have hx : float32ToFloat16 (.fin s q) = (if s then 32768 else 0) ||| 31744 := by
    simp only [float32ToFloat16, hv, he, hb]
    rcases hrange with ⟨h143, h255⟩ | h255
    · have hne : v / 8388608 ≠ 255 := by omega
      rw [if_neg (by omega), if_pos (by omega : 142 < v / 8388608), if_pos hne]
    · have hm : (((if s = true then 2147483648 else 0) + v) >>> 12) &&& 2047 = 0 := by
        rw [Nat.shiftRight_eq_div_pow, and_mask11]
        subst h255
        cases s <;> simp
      rw [hm]
      rw [if_neg (by omega), if_pos (by omega : 142 < v / 8388608),
        if_neg (show ¬(v / 8388608 ≠ 255) by omega),
        if_neg (show ¬((0 : ℕ) ≠ 0) by omega), Nat.or_zero]
  rw [hx]
  cases s
  · decide
  · decide

theorem revenq_intCast (n : ℤ) : revenq ((n : ℤ) : ℚ) = n := by
  simp only [revenq]
  rw [Int.floor_intCast, sub_self]
  rw [if_pos (by norm_num : (0 : ℚ) < 1 / 2)]

theorem f32bits_one {s : Bool} : f32bits (.fin s 1) =
    (if s then 2147483648 else 0) + 1065353216 := by
  have hlog : Int.log 2 (1 : ℚ) = 0 :=
    int_log_eq (by norm_num) (by norm_num) (by norm_num)
  simp only [f32bits]
  rw [if_neg (by norm_num), hlog]
  rw [if_neg (by norm_num), max_eq_left (by norm_num)]
  rw [show ((1 : ℚ) * 2 ^ ((23 : ℤ) - 0)) = ((8388608 : ℤ) : ℚ) from by norm_num,
    revenq_intCast]
  rw [if_neg (by norm_num), if_pos (by norm_num)]
  cases s
  · simp only [Bool.false_eq_true, if_false]
    omega
  · simp only [eq_self_iff_true, if_true]
    omega

theorem f32bits_max {s : Bool} : f32bits (.fin s 65504) =
    (if s then 2147483648 else 0) + 1199562752 := by
  have hlog : Int.log 2 (65504 : ℚ) = 15 :=
    int_log_eq (by norm_num) (by norm_num) (by norm_num)
  simp only [f32bits]
  rw [if_neg (by norm_num), hlog]
  rw [if_neg (by norm_num), max_eq_left (by norm_num)]
  rw [show ((65504 : ℚ) * 2 ^ ((23 : ℤ) - 15)) = ((16769024 : ℤ) : ℚ) from by
    norm_num, revenq_intCast]
  rw [if_neg (by norm_num), if_pos (by norm_num)]
  cases s
  · simp only [Bool.false_eq_true, if_false]
    omega
  · simp only [eq_self_iff_true, if_true]
    omega

theorem half_one {s : Bool} :
    halfToFloat (float32ToFloat16 (.fin s 1)) = .fin s 1 := by
  have hx : float32ToFloat16 (.fin s 1) = (if s then 32768 else 0) + 15360 := by
    simp only [float32ToFloat16, f32bits_one]
    cases s <;> decide
  rw [hx]
  cases s
  · simp only [Bool.false_eq_true, if_false, Nat.zero_add, halfToFloat]
    rw [show ((15360 &&& 32768) >>> 15 : ℕ) = 0 from by decide,
      show ((15360 &&& 31744) >>> 10 : ℕ) = 15 from by decide,
      show ((15360 &&& 1023 : ℕ)) = 0 from by decide]
    norm_num
  · simp only [if_true, halfToFloat]
    rw [show ((48128 &&& 32768) >>> 15 : ℕ) = 1 from by decide,
      show ((48128 &&& 31744) >>> 10 : ℕ) = 15 from by decide,
      show ((48128 &&& 1023 : ℕ)) = 0 from by decide]
    norm_num

theorem half_max :
    halfToFloat (float32ToFloat16 (.fin false 65504)) = .fin false 65504 := by
  have hx : float32ToFloat16 (.fin false 65504) = 31743 := by
    simp only [float32ToFloat16, @f32bits_max false]
    decide
  rw [hx]
  simp only [halfToFloat]
  rw [show ((31743 &&& 32768) >>> 15 : ℕ) = 0 from by decide,
    show ((31743 &&& 31744) >>> 10 : ℕ) = 30 from by decide,
    show ((31743 &&& 1023 : ℕ)) = 1023 from by decide]
  norm_num

theorem f32bits_plateau : f32bits (.fin false (65504 + 1 / 256)) = 1199562753 := by
  have hlog : Int.log 2 (65504 + 1 / 256 : ℚ) = 15 :=
    int_log_eq (by norm_num) (by norm_num) (by norm_num)
  simp only [f32bits]
  rw [if_neg (by norm_num), hlog]
  rw [if_neg (by norm_num), max_eq_left (by norm_num)]
  rw [show ((65504 + 1 / 256 : ℚ) * 2 ^ ((23 : ℤ) - 15)) = ((16769025 : ℤ) : ℚ) from by
    norm_num, revenq_intCast]
  rw [if_neg (by norm_num), if_pos (by norm_num)]
  simp only [Bool.false_eq_true, if_false]
  omega

theorem half_plateau :
    halfToFloat (float32ToFloat16 (.fin false (65504 + 1 / 256))) =
      .fin false 65504 := by
  have hx : float32ToFloat16 (.fin false (65504 + 1 / 256)) = 31743 := by
    simp only [float32ToFloat16, f32bits_plateau]
    decide
  rw [hx]
  simp only [halfToFloat]
  rw [show ((31743 &&& 32768) >>> 15 : ℕ) = 0 from by decide,
    show ((31743 &&& 31744) >>> 10 : ℕ) = 30 from by decide,
    show ((31743 &&& 1023 : ℕ)) = 1023 from by decide]
  norm_num

theorem f32bits_boundary :
    f32bits (.fin false (1 / 16777216 - 1 / 562949953421312)) = 864026624 := by
  have hlog : Int.log 2 (1 / 16777216 - 1 / 562949953421312 : ℚ) = -25 :=
    int_log_eq (by norm_num) (by norm_num) (by norm_num)
  simp only [f32bits]
  rw [if_neg (by norm_num), hlog]
  rw [if_neg (by norm_num), max_eq_left (by norm_num)]
  have hn : revenq ((1 / 16777216 - 1 / 562949953421312 : ℚ) *
      2 ^ ((23 : ℤ) - (-25 : ℤ))) = 16777216 := by
    rw [show ((1 / 16777216 - 1 / 562949953421312 : ℚ) *
        2 ^ ((23 : ℤ) - (-25 : ℤ))) = 33554431 / 2 from by norm_num]
    simp only [revenq]
    rw [show (⌊(33554431 / 2 : ℚ)⌋ : ℤ) = 16777215 from by norm_num]
    rw [if_neg (by norm_num), if_neg (by norm_num), if_neg (by norm_num)]
    norm_num
  rw [hn]
  rw [if_pos (by norm_num), if_neg (by norm_num)]
  simp only [Bool.false_eq_true, if_false]
  omega

theorem half_boundary :
    halfToFloat (float32ToFloat16 (.fin false (1 / 16777216 - 1 / 562949953421312))) =
      .fin false (1 / 16777216) := by
  have hx : float32ToFloat16 (.fin false (1 / 16777216 - 1 / 562949953421312)) = 1 := by
    simp only [float32ToFloat16, f32bits_boundary]
    decide
  rw [hx]
  simp only [halfToFloat]
  rw [show ((1 &&& 32768) >>> 15 : ℕ) = 0 from by decide,
    show ((1 &&& 31744) >>> 10 : ℕ) = 0 from by decide,
    show ((1 &&& 1023 : ℕ)) = 1 from by decide]
  norm_num

/-- C7 (amended): the half-float round trip `decode(encode(x))` is the
identity on `0.0`, `-0.0`, `1.0`, `-1.0`, `65504.0`, `Infinity` and
`-Infinity`; NaN maps to NaN; every finite value of magnitude below
`2^-24 - 2^-49` (the float32 rounding threshold of the smallest half
subnormal) decodes to a signed zero; and every finite value of magnitude at
least `65536 - 2^-9` (the float32 rounding threshold of `2^16`) saturates to
a signed infinity.  (The spec's thresholds — "below the smallest subnormal
`~6e-8`" and "above the maximum finite half `65504`" — are off: see
`C7_counterexample`.) -/
theorem C7_half_roundtrip :
    halfToFloat (float32ToFloat16 (.fin false 0)) = .fin false 0 ∧
    halfToFloat (float32ToFloat16 (.fin true 0)) = .fin true 0 ∧
    halfToFloat (float32ToFloat16 (.fin false 1)) = .fin false 1 ∧
    halfToFloat (float32ToFloat16 (.fin true 1)) = .fin true 1 ∧
    halfToFloat (float32ToFloat16 (.fin false 65504)) = .fin false 65504 ∧
    halfToFloat (float32ToFloat16 (.inf false)) = .inf false ∧
    halfToFloat (float32ToFloat16 (.inf true)) = .inf true ∧
    halfToFloat (float32ToFloat16 .nan) = .nan ∧
    (∀ (s : Bool) (q : ℚ), 0 ≤ q → q < 1 / 16777216 - 1 / 562949953421312 →
      halfToFloat (float32ToFloat16 (.fin s q)) = .fin s 0) ∧
    (∀ (s : Bool) (q : ℚ), 65536 - 1 / 512 ≤ q →
      halfToFloat (float32ToFloat16 (.fin s q)) = .inf s) :=
  ⟨half_of_small (le_refl 0) (by norm_num),
   half_of_small (le_refl 0) (by norm_num),
   half_one, half_one, half_max, by decide, by decide, by decide,
   fun s q h0 h1 => half_of_small h0 h1,
   fun s q h1 => half_of_big h1⟩

/-- C7 (counterexample): the spec's two threshold claims fail.  The value
`65504 + 1/256` is a finite value strictly above the maximum finite half, yet
it encodes to the half `0x7BFF` (decoding to `65504`), not to infinity; the
value `2^-24 - 2^-49` is strictly below the smallest half subnormal `2^-24`,
yet it rounds up through the float32 store and decodes to `2^-24`, not to
zero. -/
theorem C7_counterexample :
    (65504 : ℚ) < 65504 + 1 / 256 ∧
    halfToFloat (float32ToFloat16 (.fin false (65504 + 1 / 256))) =
      .fin false 65504 ∧
    JSF.fin false 65504 ≠ .inf false ∧
    ((0 : ℚ) < 1 / 16777216 - 1 / 562949953421312 ∧
      (1 / 16777216 - 1 / 562949953421312 : ℚ) < 1 / 16777216) ∧
    halfToFloat (float32ToFloat16 (.fin false (1 / 16777216 - 1 / 562949953421312))) =
      .fin false (1 / 16777216) ∧
    JSF.fin false (1 / 16777216) ≠ .fin false 0 :=
  ⟨by norm_num, half_plateau, by simp,
   ⟨by norm_num, by norm_num⟩, half_boundary, by simp⟩

/-- C7 (witness): the universally quantified parts of the amended statement
applied at `2^-25` (decodes to zero) and `-2^17` rendered as `(true, 2^17)`
(saturates to negative infinity). -/
theorem C7_half_roundtrip_witness :
    ((0 : ℚ) ≤ 1 / 33554432 ∧
      (1 / 33554432 : ℚ) < 1 / 16777216 - 1 / 562949953421312) ∧
    halfToFloat (float32ToFloat16 (.fin false (1 / 33554432))) = .fin false 0 ∧
    ((65536 - 1 / 512 : ℚ) ≤ 131072) ∧
    halfToFloat (float32ToFloat16 (.fin true 131072)) = .inf true :=
  ⟨⟨by norm_num, by norm_num⟩,
   C7_half_roundtrip.2.2.2.2.2.2.2.2.1 false (1 / 33554432) (by norm_num)
     (by norm_num),
   by norm_num,
   C7_half_roundtrip.2.2.2.2.2.2.2.2.2 true 131072 (by norm_num)⟩

/-! ## C3: quaternion compression round trip -/

theorem sq_le_of_abs_le_abs {x s : ℝ} (h : |x| ≤ |s|) : x * x ≤ s * s := by
  have h2 := mul_le_mul h h (abs_nonneg x) (abs_nonneg s)
  rwa [abs_mul_abs_self, abs_mul_abs_self] at h2

theorem abs_le_rt_half {x : ℝ} (h : x * x ≤ 1 / 2) : |x| ≤ 0.70710679 := by
  rw [abs_le]
  constructor <;> nlinarith

/-- The quantizer of `compressQuaternion`: for an input of magnitude at most
`0.70710679` the clamp is inactive and the dequantized value is within half a
quantization step (`≤ 2.16e-5`) of the input. -/
theorem quantize_err (v : ℝ) (hv : |v| ≤ 0.70710679) :
    (max 0 (min (round ((v + 0.70710677) * (1 / (1 / 32767 * 1.4142135)))) 32767)).toNat
      ≤ 32767 ∧
    |(((max 0 (min (round ((v + 0.70710677) * (1 / (1 / 32767 * 1.4142135)))) 32767)).toNat
        : ℝ) * (1 / 32767) * 1.4142135 - 0.70710677) - v| ≤ 0.0000216 := by
  have hfac : (1 : ℝ) / (1 / 32767 * 1.4142135) = 327670000000 / 14142135 := by
    norm_num
  rw [abs_le] at hv
  set u : ℝ := (v + 0.70710677) * (1 / (1 / 32767 * 1.4142135)) with hu
  have hub : u < 32767.5 := by
    rw [hu, hfac]
    nlinarith
  have hlb : (-1 : ℝ) / 2 < u := by
    rw [hu, hfac]
    nlinarith
  have hr1 : round u ≤ 32767 := by
    rw [round_eq]
    have : ⌊u + 1 / 2⌋ < 32768 := Int.floor_lt.mpr (by push_cast; linarith)
    omega
  have hr0 : 0 ≤ round u := by
    rw [round_eq]
    have : (0 : ℤ) ≤ ⌊u + 1 / 2⌋ := Int.le_floor.mpr (by push_cast; linarith)
    omega
  have hclamp : max 0 (min (round u) 32767) = round u := by omega
  rw [hclamp]
  refine ⟨by omega, ?_⟩
  have hcast : (((round u).toNat : ℕ) : ℝ) = ((round u : ℤ) : ℝ) := by
    exact_mod_cast congrArg (fun z : ℤ => (z : ℝ)) (Int.toNat_of_nonneg hr0)
  rw [hcast]
  have hkey : ((round u : ℤ) : ℝ) * (1 / 32767) * 1.4142135 - 0.70710677 - v =
      (((round u : ℤ) : ℝ) - u) * (1 / 32767 * 1.4142135) := by
    rw [hu, hfac]
    ring
  rw [hkey]
  have hround : |((round u : ℤ) : ℝ) - u| ≤ 1 / 2 := by
    rw [abs_sub_comm]
    exact abs_sub_round u
  rw [abs_mul]
  have hpos : |(1 : ℝ) / 32767 * 1.4142135| = 1 / 32767 * 1.4142135 :=
    abs_of_pos (by norm_num)
  rw [hpos]
  nlinarith [abs_nonneg (((round u : ℤ) : ℝ) - u)]

/-- Decompressing the three packed words reproduces the quantized fields and
the sign/index bits exactly (field extraction is inverse to packing). -/
theorem decompress_pack (sb m ka kb kc : ℕ) (hs : sb ≤ 1) (hm : m ≤ 3)
    (ha : ka ≤ 32767) (hb : kb ≤ 32767) (hc : kc ≤ 32767) :
    parseCompressedQuaternion ((sb <<< 15) ||| (m <<< 13) ||| (ka >>> 2))
      (((ka &&& 3) <<< 14) ||| (kb >>> 1)) (((kb &&& 1) <<< 15) ||| kc) =
    (let a' : ℝ := (ka : ℝ) * (1 / 32767) * 1.4142135 - 0.70710677
     let b' : ℝ := (kb : ℝ) * (1 / 32767) * 1.4142135 - 0.70710677
     let c' : ℝ := (kc : ℝ) * (1 / 32767) * 1.4142135 - 0.70710677
     let dS : ℝ := 1 - (a' * a' + b' * b' + c' * c')
     let d0 : ℝ := if 0 < dS then Real.sqrt dS else 0
     let d : ℝ := if sb = 1 then -d0 else d0
     match m with
     | 0 => (d, a', b', c')
     | 1 => (a', d, b', c')
     | 2 => (a', b', d, c')
     | 3 => (a', b', c', d)
     | _ => (0, 0, 0, 1)) := by
  obtain ⟨h1, h2, h3, h4, h5, -, -, -⟩ := pack_unpack sb m ka kb kc hs hm ha hb hc
  simp only [parseCompressedQuaternion]
  rw [h1, h2, h3, h4, h5]
  rcases m with _ | _ | _ | _ | m5 <;> rfl

/-- Error propagation through the omitted-component reconstruction: with the
three retained components quantized to within `2.16e-5` each, the
reconstructed squared component stays positive and its square root is within
`1.84e-4` of the true component's magnitude. -/
theorem recon_d (aT bT cT sT a2 b2 c2 : ℝ)
    (hsum : aT * aT + bT * bT + cT * cT + sT * sT = 1)
    (hs2 : 1 / 4 ≤ sT * sT)
    (haT : |aT| ≤ 0.70710679) (hbT : |bT| ≤ 0.70710679) (hcT : |cT| ≤ 0.70710679)
    (hea : |a2 - aT| ≤ 0.0000216) (heb : |b2 - bT| ≤ 0.0000216)
    (hec : |c2 - cT| ≤ 0.0000216) :
    0 < 1 - (a2 * a2 + b2 * b2 + c2 * c2) ∧
    abs (Real.sqrt (1 - (a2 * a2 + b2 * b2 + c2 * c2)) - |sT|) ≤ 0.000184 := by
  have comp_bound : ∀ x y : ℝ, |x| ≤ 0.70710679 → |y - x| ≤ 0.0000216 →
      |x * x - y * y| ≤ 0.0000306 := by
    intro x y hx hy
    have hfac2 : x * x - y * y = (x - y) * (x + y) := by ring
    rw [hfac2, abs_mul]
    have h1 : |x - y| ≤ 0.0000216 := by rw [abs_sub_comm]; exact hy
    have h2 : |x + y| ≤ 1.41424 := by
      have hxy : x + y = 2 * x + (y - x) := by ring
      rw [hxy]
      calc |2 * x + (y - x)| ≤ |2 * x| + |y - x| := abs_add _ _
        _ ≤ 2 * 0.70710679 + 0.0000216 := by
            rw [abs_mul]
            have h2v : |(2 : ℝ)| = 2 := by norm_num
            rw [h2v]
            linarith
        _ ≤ 1.41424 := by norm_num
    calc |x - y| * |x + y| ≤ 0.0000216 * 1.41424 :=
        mul_le_mul h1 h2 (abs_nonneg _) (by norm_num)
      _ ≤ 0.0000306 := by norm_num
  have ha2 := comp_bound aT a2 haT hea
  have hb2 := comp_bound bT b2 hbT heb
  have hc2 := comp_bound cT c2 hcT hec
  have hdiffeq : 1 - (a2 * a2 + b2 * b2 + c2 * c2) - sT * sT =
      (aT * aT - a2 * a2) + (bT * bT - b2 * b2) + (cT * cT - c2 * c2) := by
    linarith
  have hdiff : |1 - (a2 * a2 + b2 * b2 + c2 * c2) - sT * sT| ≤ 0.000092 := by
    rw [hdiffeq]
    calc |(aT * aT - a2 * a2) + (bT * bT - b2 * b2) + (cT * cT - c2 * c2)| ≤
        |(aT * aT - a2 * a2) + (bT * bT - b2 * b2)| + |cT * cT - c2 * c2| :=
          abs_add _ _
      _ ≤ |aT * aT - a2 * a2| + |bT * bT - b2 * b2| + |cT * cT - c2 * c2| := by
          have := abs_add (aT * aT - a2 * a2) (bT * bT - b2 * b2)
          linarith
      _ ≤ 0.000092 := by linarith
  have hdabs := abs_le.mp hdiff
  have hD2pos : 0 < 1 - (a2 * a2 + b2 * b2 + c2 * c2) := by linarith
  refine ⟨hD2pos, ?_⟩
  have hs_abs : 1 / 2 ≤ |sT| := by
    nlinarith [abs_nonneg sT, abs_mul_abs_self sT, sq_nonneg (|sT| - 1 / 2),
      sq_nonneg (|sT| + 1 / 2)]
  have hsq : Real.sqrt (1 - (a2 * a2 + b2 * b2 + c2 * c2)) *
      Real.sqrt (1 - (a2 * a2 + b2 * b2 + c2 * c2)) =
      1 - (a2 * a2 + b2 * b2 + c2 * c2) := Real.mul_self_sqrt hD2pos.le
  have hnn := Real.sqrt_nonneg (1 - (a2 * a2 + b2 * b2 + c2 * c2))
  have hfact : (Real.sqrt (1 - (a2 * a2 + b2 * b2 + c2 * c2)) - |sT|) *
      (Real.sqrt (1 - (a2 * a2 + b2 * b2 + c2 * c2)) + |sT|) =
      1 - (a2 * a2 + b2 * b2 + c2 * c2) - sT * sT := by
    have expand : ∀ x y : ℝ, (x - y) * (x + y) = x * x - y * y := by
      intro x y; ring
    rw [expand, hsq, abs_mul_abs_self]
  have hden : 1 / 2 ≤ Real.sqrt (1 - (a2 * a2 + b2 * b2 + c2 * c2)) + |sT| := by
    linarith
  have habs_fact : abs (Real.sqrt (1 - (a2 * a2 + b2 * b2 + c2 * c2)) - |sT|) *
      (Real.sqrt (1 - (a2 * a2 + b2 * b2 + c2 * c2)) + |sT|) =
      |1 - (a2 * a2 + b2 * b2 + c2 * c2) - sT * sT| := by
    rw [← abs_of_nonneg (show (0 : ℝ) ≤
      Real.sqrt (1 - (a2 * a2 + b2 * b2 + c2 * c2)) + |sT| by linarith),
      ← abs_mul, hfact]
  have hprod : abs (Real.sqrt (1 - (a2 * a2 + b2 * b2 + c2 * c2)) - |sT|) *
      (Real.sqrt (1 - (a2 * a2 + b2 * b2 + c2 * c2)) + |sT|) ≤ 0.000092 := by
    rw [habs_fact]
    exact hdiff
  nlinarith [hprod, hden,
    mul_nonneg (abs_nonneg (Real.sqrt (1 - (a2 * a2 + b2 * b2 + c2 * c2)) - |sT|))
      (show (0 : ℝ) ≤ Real.sqrt (1 - (a2 * a2 + b2 * b2 + c2 * c2)) + |sT| - 1 / 2
        by linarith)]

/-- Structural analysis of `compressQuaternion` on a unit quaternion: the
selected index, sign bit and three quantized fields in terms of the true
components, together with the max-selection facts needed for the error
analysis. -/
theorem compress_correct (q0 q1 q2 q3 : ℝ)
    (hunit : q0 * q0 + q1 * q1 + q2 * q2 + q3 * q3 = 1) :
    ∃ (m sb : ℕ) (aT bT cT sT : ℝ),
      m ≤ 3 ∧ sb ≤ 1 ∧
      compressQuaternion q0 q1 q2 q3 =
        ((sb <<< 15) ||| (m <<< 13) ||| ((max 0 (min (round ((aT + 0.70710677) * (1 / (1 / 32767 * 1.4142135)))) 32767)).toNat >>> 2),
         (((max 0 (min (round ((aT + 0.70710677) * (1 / (1 / 32767 * 1.4142135)))) 32767)).toNat &&& 3) <<< 14) ||| ((max 0 (min (round ((bT + 0.70710677) * (1 / (1 / 32767 * 1.4142135)))) 32767)).toNat >>> 1),
         (((max 0 (min (round ((bT + 0.70710677) * (1 / (1 / 32767 * 1.4142135)))) 32767)).toNat &&& 1) <<< 15) ||| (max 0 (min (round ((cT + 0.70710677) * (1 / (1 / 32767 * 1.4142135)))) 32767)).toNat) ∧
      (match m with
       | 0 => (sT, aT, bT, cT)
       | 1 => (aT, sT, bT, cT)
       | 2 => (aT, bT, sT, cT)
       | _ => (aT, bT, cT, sT)) = (q0, q1, q2, q3) ∧
      aT * aT + bT * bT + cT * cT + sT * sT = 1 ∧
      1 / 4 ≤ sT * sT ∧
      |aT| ≤ 0.70710679 ∧ |bT| ≤ 0.70710679 ∧ |cT| ≤ 0.70710679 ∧
      (sb = 1 ↔ sT < 0) := by
  have hlen : Real.sqrt (q0 * q0 + q1 * q1 + q2 * q2 + q3 * q3) = 1 := by
    rw [hunit, Real.sqrt_one]
  by_cases h1 : |q1| > |q0|
  · by_cases h2 : |q2| > |q1|
    · by_cases h3 : |q3| > |q2|
      · have hcomp : compressQuaternion q0 q1 q2 q3 =
            (((if q3 < 0 then 1 else 0) <<< 15) ||| (3 <<< 13) ||| ((max 0 (min (round ((q0 + 0.70710677) * (1 / (1 / 32767 * 1.4142135)))) 32767)).toNat >>> 2),
             (((max 0 (min (round ((q0 + 0.70710677) * (1 / (1 / 32767 * 1.4142135)))) 32767)).toNat &&& 3) <<< 14) ||| ((max 0 (min (round ((q1 + 0.70710677) * (1 / (1 / 32767 * 1.4142135)))) 32767)).toNat >>> 1),
             (((max 0 (min (round ((q1 + 0.70710677) * (1 / (1 / 32767 * 1.4142135)))) 32767)).toNat &&& 1) <<< 15) ||| (max 0 (min (round ((q2 + 0.70710677) * (1 / (1 / 32767 * 1.4142135)))) 32767)).toNat) := by
          simp only [compressQuaternion, hlen]
          rw [if_neg one_ne_zero]
          simp only [div_one]
          rw [if_pos h1, if_pos (show |q2| > ((1 : ℕ), |q1|).2 from h2),
            if_pos (show |q3| > ((2 : ℕ), |q2|).2 from h3)]
          rfl
        have hA : |q0| ≤ |q3| := le_of_lt (lt_trans (lt_trans h1 h2) h3)
        have hB : |q1| ≤ |q3| := le_of_lt (lt_trans h2 h3)
        have hC : |q2| ≤ |q3| := le_of_lt h3
        have hsq_a := sq_le_of_abs_le_abs hA
        have hsq_b := sq_le_of_abs_le_abs hB
        have hsq_c := sq_le_of_abs_le_abs hC
        refine ⟨3, if q3 < 0 then 1 else 0, q0, q1, q2, q3,
          by norm_num, ?_, ?_, ?_, ?_, ?_, ?_, ?_, ?_, ?_⟩
        · split <;> norm_num
        · exact hcomp
        · rfl
        · linarith
        · linarith [hsq_a, hsq_b, hsq_c]
        · exact abs_le_rt_half (by linarith [hsq_a, mul_self_nonneg (q1 : ℝ), mul_self_nonneg (q2 : ℝ)])
        · exact abs_le_rt_half (by linarith [hsq_b, mul_self_nonneg (q0 : ℝ), mul_self_nonneg (q2 : ℝ)])
        · exact abs_le_rt_half (by linarith [hsq_c, mul_self_nonneg (q0 : ℝ), mul_self_nonneg (q1 : ℝ)])
        · by_cases hn : q3 < 0 <;> simp [hn]
      · have hcomp : compressQuaternion q0 q1 q2 q3 =
            (((if q2 < 0 then 1 else 0) <<< 15) ||| (2 <<< 13) ||| ((max 0 (min (round ((q0 + 0.70710677) * (1 / (1 / 32767 * 1.4142135)))) 32767)).toNat >>> 2),
             (((max 0 (min (round ((q0 + 0.70710677) * (1 / (1 / 32767 * 1.4142135)))) 32767)).toNat &&& 3) <<< 14) ||| ((max 0 (min (round ((q1 + 0.70710677) * (1 / (1 / 32767 * 1.4142135)))) 32767)).toNat >>> 1),
             (((max 0 (min (round ((q1 + 0.70710677) * (1 / (1 / 32767 * 1.4142135)))) 32767)).toNat &&& 1) <<< 15) ||| (max 0 (min (round ((q3 + 0.70710677) * (1 / (1 / 32767 * 1.4142135)))) 32767)).toNat) := by
          simp only [compressQuaternion, hlen]
          rw [if_neg one_ne_zero]
          simp only [div_one]
          rw [if_pos h1, if_pos (show |q2| > ((1 : ℕ), |q1|).2 from h2),
            if_neg (show ¬ |q3| > ((2 : ℕ), |q2|).2 from h3)]
          rfl
        have hA : |q0| ≤ |q2| := le_of_lt (lt_trans h1 h2)
        have hB : |q1| ≤ |q2| := le_of_lt h2
        have hC : |q3| ≤ |q2| := le_of_not_lt h3
        have hsq_a := sq_le_of_abs_le_abs hA
        have hsq_b := sq_le_of_abs_le_abs hB
        have hsq_c := sq_le_of_abs_le_abs hC
        refine ⟨2, if q2 < 0 then 1 else 0, q0, q1, q3, q2,
          by norm_num, ?_, ?_, ?_, ?_, ?_, ?_, ?_, ?_, ?_⟩
        · split <;> norm_num
        · exact hcomp
        · rfl
        · linarith
        · linarith [hsq_a, hsq_b, hsq_c]
        · exact abs_le_rt_half (by linarith [hsq_a, mul_self_nonneg (q1 : ℝ), mul_self_nonneg (q3 : ℝ)])
        · exact abs_le_rt_half (by linarith [hsq_b, mul_self_nonneg (q0 : ℝ), mul_self_nonneg (q3 : ℝ)])
        · exact abs_le_rt_half (by linarith [hsq_c, mul_self_nonneg (q0 : ℝ), mul_self_nonneg (q1 : ℝ)])
        · by_cases hn : q2 < 0 <;> simp [hn]
    · by_cases h3 : |q3| > |q1|
      · have hcomp : compressQuaternion q0 q1 q2 q3 =
            (((if q3 < 0 then 1 else 0) <<< 15) ||| (3 <<< 13) ||| ((max 0 (min (round ((q0 + 0.70710677) * (1 / (1 / 32767 * 1.4142135)))) 32767)).toNat >>> 2),
             (((max 0 (min (round ((q0 + 0.70710677) * (1 / (1 / 32767 * 1.4142135)))) 32767)).toNat &&& 3) <<< 14) ||| ((max 0 (min (round ((q1 + 0.70710677) * (1 / (1 / 32767 * 1.4142135)))) 32767)).toNat >>> 1),
             (((max 0 (min (round ((q1 + 0.70710677) * (1 / (1 / 32767 * 1.4142135)))) 32767)).toNat &&& 1) <<< 15) ||| (max 0 (min (round ((q2 + 0.70710677) * (1 / (1 / 32767 * 1.4142135)))) 32767)).toNat) := by
          simp only [compressQuaternion, hlen]
          rw [if_neg one_ne_zero]
          simp only [div_one]
          rw [if_pos h1, if_neg (show ¬ |q2| > ((1 : ℕ), |q1|).2 from h2),
            if_pos (show |q3| > ((1 : ℕ), |q1|).2 from h3)]
          rfl
        have hA : |q0| ≤ |q3| := le_of_lt (lt_trans h1 h3)
        have hB : |q1| ≤ |q3| := le_of_lt h3
        have hC : |q2| ≤ |q3| := le_of_lt (lt_of_le_of_lt (le_of_not_lt h2) h3)
        have hsq_a := sq_le_of_abs_le_abs hA
        have hsq_b := sq_le_of_abs_le_abs hB
        have hsq_c := sq_le_of_abs_le_abs hC
        refine ⟨3, if q3 < 0 then 1 else 0, q0, q1, q2, q3,
          by norm_num, ?_, ?_, ?_, ?_, ?_, ?_, ?_, ?_, ?_⟩
        · split <;> norm_num
        · exact hcomp
        · rfl
        · linarith
        · linarith [hsq_a, hsq_b, hsq_c]
        · exact abs_le_rt_half (by linarith [hsq_a, mul_self_nonneg (q1 : ℝ), mul_self_nonneg (q2 : ℝ)])
        · exact abs_le_rt_half (by linarith [hsq_b, mul_self_nonneg (q0 : ℝ), mul_self_nonneg (q2 : ℝ)])
        · exact abs_le_rt_half (by linarith [hsq_c, mul_self_nonneg (q0 : ℝ), mul_self_nonneg (q1 : ℝ)])
        · by_cases hn : q3 < 0 <;> simp [hn]
      · have hcomp : compressQuaternion q0 q1 q2 q3 =
            (((if q1 < 0 then 1 else 0) <<< 15) ||| (1 <<< 13) ||| ((max 0 (min (round ((q0 + 0.70710677) * (1 / (1 / 32767 * 1.4142135)))) 32767)).toNat >>> 2),
             (((max 0 (min (round ((q0 + 0.70710677) * (1 / (1 / 32767 * 1.4142135)))) 32767)).toNat &&& 3) <<< 14) ||| ((max 0 (min (round ((q2 + 0.70710677) * (1 / (1 / 32767 * 1.4142135)))) 32767)).toNat >>> 1),
             (((max 0 (min (round ((q2 + 0.70710677) * (1 / (1 / 32767 * 1.4142135)))) 32767)).toNat &&& 1) <<< 15) ||| (max 0 (min (round ((q3 + 0.70710677) * (1 / (1 / 32767 * 1.4142135)))) 32767)).toNat) := by
          simp only [compressQuaternion, hlen]
          rw [if_neg one_ne_zero]
          simp only [div_one]
          rw [if_pos h1, if_neg (show ¬ |q2| > ((1 : ℕ), |q1|).2 from h2),
            if_neg (show ¬ |q3| > ((1 : ℕ), |q1|).2 from h3)]
          rfl
        have hA : |q0| ≤ |q1| := le_of_lt h1
        have hB : |q2| ≤ |q1| := le_of_not_lt h2
        have hC : |q3| ≤ |q1| := le_of_not_lt h3
        have hsq_a := sq_le_of_abs_le_abs hA
        have hsq_b := sq_le_of_abs_le_abs hB
        have hsq_c := sq_le_of_abs_le_abs hC
        refine ⟨1, if q1 < 0 then 1 else 0, q0, q2, q3, q1,
          by norm_num, ?_, ?_, ?_, ?_, ?_, ?_, ?_, ?_, ?_⟩
        · split <;> norm_num
        · exact hcomp
        · rfl
        · linarith
        · linarith [hsq_a, hsq_b, hsq_c]
        · exact abs_le_rt_half (by linarith [hsq_a, mul_self_nonneg (q2 : ℝ), mul_self_nonneg (q3 : ℝ)])
        · exact abs_le_rt_half (by linarith [hsq_b, mul_self_nonneg (q0 : ℝ), mul_self_nonneg (q3 : ℝ)])
        · exact abs_le_rt_half (by linarith [hsq_c, mul_self_nonneg (q0 : ℝ), mul_self_nonneg (q2 : ℝ)])
        · by_cases hn : q1 < 0 <;> simp [hn]
  · by_cases h2 : |q2| > |q0|
    · by_cases h3 : |q3| > |q2|
      · have hcomp : compressQuaternion q0 q1 q2 q3 =
            (((if q3 < 0 then 1 else 0) <<< 15) ||| (3 <<< 13) ||| ((max 0 (min (round ((q0 + 0.70710677) * (1 / (1 / 32767 * 1.4142135)))) 32767)).toNat >>> 2),
             (((max 0 (min (round ((q0 + 0.70710677) * (1 / (1 / 32767 * 1.4142135)))) 32767)).toNat &&& 3) <<< 14) ||| ((max 0 (min (round ((q1 + 0.70710677) * (1 / (1 / 32767 * 1.4142135)))) 32767)).toNat >>> 1),
             (((max 0 (min (round ((q1 + 0.70710677) * (1 / (1 / 32767 * 1.4142135)))) 32767)).toNat &&& 1) <<< 15) ||| (max 0 (min (round ((q2 + 0.70710677) * (1 / (1 / 32767 * 1.4142135)))) 32767)).toNat) := by
          simp only [compressQuaternion, hlen]
          rw [if_neg one_ne_zero]
          simp only [div_one]
          rw [if_neg h1, if_pos (show |q2| > ((0 : ℕ), |q0|).2 from h2),
            if_pos (show |q3| > ((2 : ℕ), |q2|).2 from h3)]
          rfl
        have hA : |q0| ≤ |q3| := le_of_lt (lt_trans h2 h3)
        have hB : |q1| ≤ |q3| := le_of_lt (lt_of_le_of_lt (le_of_not_lt h1) (lt_trans h2 h3))
        have hC : |q2| ≤ |q3| := le_of_lt h3
        have hsq_a := sq_le_of_abs_le_abs hA
        have hsq_b := sq_le_of_abs_le_abs hB
        have hsq_c := sq_le_of_abs_le_abs hC
        refine ⟨3, if q3 < 0 then 1 else 0, q0, q1, q2, q3,
          by norm_num, ?_, ?_, ?_, ?_, ?_, ?_, ?_, ?_, ?_⟩
        · split <;> norm_num
        · exact hcomp
        · rfl
        · linarith
        · linarith [hsq_a, hsq_b, hsq_c]
        · exact abs_le_rt_half (by linarith [hsq_a, mul_self_nonneg (q1 : ℝ), mul_self_nonneg (q2 : ℝ)])
        · exact abs_le_rt_half (by linarith [hsq_b, mul_self_nonneg (q0 : ℝ), mul_self_nonneg (q2 : ℝ)])
        · exact abs_le_rt_half (by linarith [hsq_c, mul_self_nonneg (q0 : ℝ), mul_self_nonneg (q1 : ℝ)])
        · by_cases hn : q3 < 0 <;> simp [hn]
      · have hcomp : compressQuaternion q0 q1 q2 q3 =
            (((if q2 < 0 then 1 else 0) <<< 15) ||| (2 <<< 13) ||| ((max 0 (min (round ((q0 + 0.70710677) * (1 / (1 / 32767 * 1.4142135)))) 32767)).toNat >>> 2),
             (((max 0 (min (round ((q0 + 0.70710677) * (1 / (1 / 32767 * 1.4142135)))) 32767)).toNat &&& 3) <<< 14) ||| ((max 0 (min (round ((q1 + 0.70710677) * (1 / (1 / 32767 * 1.4142135)))) 32767)).toNat >>> 1),
             (((max 0 (min (round ((q1 + 0.70710677) * (1 / (1 / 32767 * 1.4142135)))) 32767)).toNat &&& 1) <<< 15) ||| (max 0 (min (round ((q3 + 0.70710677) * (1 / (1 / 32767 * 1.4142135)))) 32767)).toNat) := by
          simp only [compressQuaternion, hlen]
          rw [if_neg one_ne_zero]
          simp only [div_one]
          rw [if_neg h1, if_pos (show |q2| > ((0 : ℕ), |q0|).2 from h2),
            if_neg (show ¬ |q3| > ((2 : ℕ), |q2|).2 from h3)]
          rfl
        have hA : |q0| ≤ |q2| := le_of_lt h2
        have hB : |q1| ≤ |q2| := le_of_lt (lt_of_le_of_lt (le_of_not_lt h1) h2)
        have hC : |q3| ≤ |q2| := le_of_not_lt h3
        have hsq_a := sq_le_of_abs_le_abs hA
        have hsq_b := sq_le_of_abs_le_abs hB
        have hsq_c := sq_le_of_abs_le_abs hC
        refine ⟨2, if q2 < 0 then 1 else 0, q0, q1, q3, q2,
          by norm_num, ?_, ?_, ?_, ?_, ?_, ?_, ?_, ?_, ?_⟩
        · split <;> norm_num
        · exact hcomp
        · rfl
        · linarith
        · linarith [hsq_a, hsq_b, hsq_c]
        · exact abs_le_rt_half (by linarith [hsq_a, mul_self_nonneg (q1 : ℝ), mul_self_nonneg (q3 : ℝ)])
        · exact abs_le_rt_half (by linarith [hsq_b, mul_self_nonneg (q0 : ℝ), mul_self_nonneg (q3 : ℝ)])
        · exact abs_le_rt_half (by linarith [hsq_c, mul_self_nonneg (q0 : ℝ), mul_self_nonneg (q1 : ℝ)])
        · by_cases hn : q2 < 0 <;> simp [hn]
    · by_cases h3 : |q3| > |q0|
      · have hcomp : compressQuaternion q0 q1 q2 q3 =
            (((if q3 < 0 then 1 else 0) <<< 15) ||| (3 <<< 13) ||| ((max 0 (min (round ((q0 + 0.70710677) * (1 / (1 / 32767 * 1.4142135)))) 32767)).toNat >>> 2),
             (((max 0 (min (round ((q0 + 0.70710677) * (1 / (1 / 32767 * 1.4142135)))) 32767)).toNat &&& 3) <<< 14) ||| ((max 0 (min (round ((q1 + 0.70710677) * (1 / (1 / 32767 * 1.4142135)))) 32767)).toNat >>> 1),
             (((max 0 (min (round ((q1 + 0.70710677) * (1 / (1 / 32767 * 1.4142135)))) 32767)).toNat &&& 1) <<< 15) ||| (max 0 (min (round ((q2 + 0.70710677) * (1 / (1 / 32767 * 1.4142135)))) 32767)).toNat) := by
          simp only [compressQuaternion, hlen]
          rw [if_neg one_ne_zero]
          simp only [div_one]
          rw [if_neg h1, if_neg (show ¬ |q2| > ((0 : ℕ), |q0|).2 from h2),
            if_pos (show |q3| > ((0 : ℕ), |q0|).2 from h3)]
          rfl
        have hA : |q0| ≤ |q3| := le_of_lt h3
        have hB : |q1| ≤ |q3| := le_of_lt (lt_of_le_of_lt (le_of_not_lt h1) h3)
        have hC : |q2| ≤ |q3| := le_of_lt (lt_of_le_of_lt (le_of_not_lt h2) h3)
        have hsq_a := sq_le_of_abs_le_abs hA
        have hsq_b := sq_le_of_abs_le_abs hB
        have hsq_c := sq_le_of_abs_le_abs hC
        refine ⟨3, if q3 < 0 then 1 else 0, q0, q1, q2, q3,
          by norm_num, ?_, ?_, ?_, ?_, ?_, ?_, ?_, ?_, ?_⟩
        · split <;> norm_num
        · exact hcomp
        · rfl
        · linarith
        · linarith [hsq_a, hsq_b, hsq_c]
        · exact abs_le_rt_half (by linarith [hsq_a, mul_self_nonneg (q1 : ℝ), mul_self_nonneg (q2 : ℝ)])
        · exact abs_le_rt_half (by linarith [hsq_b, mul_self_nonneg (q0 : ℝ), mul_self_nonneg (q2 : ℝ)])
        · exact abs_le_rt_half (by linarith [hsq_c, mul_self_nonneg (q0 : ℝ), mul_self_nonneg (q1 : ℝ)])
        · by_cases hn : q3 < 0 <;> simp [hn]
      · have hcomp : compressQuaternion q0 q1 q2 q3 =
            (((if q0 < 0 then 1 else 0) <<< 15) ||| (0 <<< 13) ||| ((max 0 (min (round ((q1 + 0.70710677) * (1 / (1 / 32767 * 1.4142135)))) 32767)).toNat >>> 2),
             (((max 0 (min (round ((q1 + 0.70710677) * (1 / (1 / 32767 * 1.4142135)))) 32767)).toNat &&& 3) <<< 14) ||| ((max 0 (min (round ((q2 + 0.70710677) * (1 / (1 / 32767 * 1.4142135)))) 32767)).toNat >>> 1),
             (((max 0 (min (round ((q2 + 0.70710677) * (1 / (1 / 32767 * 1.4142135)))) 32767)).toNat &&& 1) <<< 15) ||| (max 0 (min (round ((q3 + 0.70710677) * (1 / (1 / 32767 * 1.4142135)))) 32767)).toNat) := by
          simp only [compressQuaternion, hlen]
          rw [if_neg one_ne_zero]
          simp only [div_one]
          rw [if_neg h1, if_neg (show ¬ |q2| > ((0 : ℕ), |q0|).2 from h2),
            if_neg (show ¬ |q3| > ((0 : ℕ), |q0|).2 from h3)]
          rfl
        have hA : |q1| ≤ |q0| := le_of_not_lt h1
        have hB : |q2| ≤ |q0| := le_of_not_lt h2
        have hC : |q3| ≤ |q0| := le_of_not_lt h3
        have hsq_a := sq_le_of_abs_le_abs hA
        have hsq_b := sq_le_of_abs_le_abs hB
        have hsq_c := sq_le_of_abs_le_abs hC
        refine ⟨0, if q0 < 0 then 1 else 0, q1, q2, q3, q0,
          by norm_num, ?_, ?_, ?_, ?_, ?_, ?_, ?_, ?_, ?_⟩
        · split <;> norm_num
        · exact hcomp
        · rfl
        · linarith
        · linarith [hsq_a, hsq_b, hsq_c]
        · exact abs_le_rt_half (by linarith [hsq_a, mul_self_nonneg (q2 : ℝ), mul_self_nonneg (q3 : ℝ)])
        · exact abs_le_rt_half (by linarith [hsq_b, mul_self_nonneg (q1 : ℝ), mul_self_nonneg (q3 : ℝ)])
        · exact abs_le_rt_half (by linarith [hsq_c, mul_self_nonneg (q1 : ℝ), mul_self_nonneg (q2 : ℝ)])
        · by_cases hn : q0 < 0 <;> simp [hn]

/-- Sign handling of the reconstructed component: the decoded value matches
the true selected component to within the reconstruction tolerance, and its
square is the reconstructed squared magnitude. -/
theorem d_err (sb : ℕ) (sT dS : ℝ) (hsgn : sb = 1 ↔ sT < 0) (hD2pos : 0 < dS)
    (hdb : abs (Real.sqrt dS - |sT|) ≤ 0.000184) :
    abs ((if sb = 1 then -(if 0 < dS then Real.sqrt dS else 0)
          else (if 0 < dS then Real.sqrt dS else 0)) - sT) ≤ 0.000184 ∧
    (if sb = 1 then -(if 0 < dS then Real.sqrt dS else 0)
      else (if 0 < dS then Real.sqrt dS else 0)) *
      (if sb = 1 then -(if 0 < dS then Real.sqrt dS else 0)
        else (if 0 < dS then Real.sqrt dS else 0)) = dS := by
  rw [if_pos hD2pos]
  constructor
  · by_cases hneg : sT < 0
    · rw [if_pos (hsgn.mpr hneg)]
      have habs : |sT| = -sT := abs_of_neg hneg
      rw [habs] at hdb
      have hrw : -Real.sqrt dS - sT = -(Real.sqrt dS - -sT) := by ring
      rw [hrw, abs_neg]
      exact hdb
    · rw [if_neg (fun h => hneg (hsgn.mp h))]
      have habs : |sT| = sT := abs_of_nonneg (not_lt.mp hneg)
      rw [habs] at hdb
      exact hdb
  · by_cases h : sb = 1
    · rw [if_pos h, neg_mul_neg]
      exact Real.mul_self_sqrt hD2pos.le
    · rw [if_neg h]
      exact Real.mul_self_sqrt hD2pos.le

/-- Renormalizing the decoded quaternion is the identity (its norm is exactly
1), so each decoded component stays within the tolerance of the true one, for
each of the four placements of the reconstructed component. -/
theorem renorm_bound (d a2 b2 c2 aT bT cT sT : ℝ)
    (hdd : d * d = 1 - (a2 * a2 + b2 * b2 + c2 * c2))
    (hderr : abs (d - sT) ≤ 0.000184)
    (hea : abs (a2 - aT) ≤ 0.0000216) (heb : abs (b2 - bT) ≤ 0.0000216)
    (hec : abs (c2 - cT) ≤ 0.0000216) :
    (abs ((renormalize (d, a2, b2, c2)).1 - sT) < 2 / 10000 ∧
     abs ((renormalize (d, a2, b2, c2)).2.1 - aT) < 2 / 10000 ∧
     abs ((renormalize (d, a2, b2, c2)).2.2.1 - bT) < 2 / 10000 ∧
     abs ((renormalize (d, a2, b2, c2)).2.2.2 - cT) < 2 / 10000) ∧
    (abs ((renormalize (a2, d, b2, c2)).1 - aT) < 2 / 10000 ∧
     abs ((renormalize (a2, d, b2, c2)).2.1 - sT) < 2 / 10000 ∧
     abs ((renormalize (a2, d, b2, c2)).2.2.1 - bT) < 2 / 10000 ∧
     abs ((renormalize (a2, d, b2, c2)).2.2.2 - cT) < 2 / 10000) ∧
    (abs ((renormalize (a2, b2, d, c2)).1 - aT) < 2 / 10000 ∧
     abs ((renormalize (a2, b2, d, c2)).2.1 - bT) < 2 / 10000 ∧
     abs ((renormalize (a2, b2, d, c2)).2.2.1 - sT) < 2 / 10000 ∧
     abs ((renormalize (a2, b2, d, c2)).2.2.2 - cT) < 2 / 10000) ∧
    (abs ((renormalize (a2, b2, c2, d)).1 - aT) < 2 / 10000 ∧
     abs ((renormalize (a2, b2, c2, d)).2.1 - bT) < 2 / 10000 ∧
     abs ((renormalize (a2, b2, c2, d)).2.2.1 - cT) < 2 / 10000 ∧
     abs ((renormalize (a2, b2, c2, d)).2.2.2 - sT) < 2 / 10000) := by
  have hs1 : d * d + a2 * a2 + b2 * b2 + c2 * c2 = 1 := by rw [hdd]; ring
  have hsqrt1 : ∀ x : ℝ, x = 1 → Real.sqrt x = 1 := by
    intro x h
    rw [h]
    exact Real.sqrt_one
  have e1 : abs (d - sT) < 2 / 10000 := lt_of_le_of_lt hderr (by norm_num)
  have e2 : abs (a2 - aT) < 2 / 10000 := lt_of_le_of_lt hea (by norm_num)
  have e3 : abs (b2 - bT) < 2 / 10000 := lt_of_le_of_lt heb (by norm_num)
  have e4 : abs (c2 - cT) < 2 / 10000 := lt_of_le_of_lt hec (by norm_num)
  refine ⟨⟨?_, ?_, ?_, ?_⟩, ⟨?_, ?_, ?_, ?_⟩, ⟨?_, ?_, ?_, ?_⟩, ⟨?_, ?_, ?_, ?_⟩⟩ <;>
    simp only [renormalize] <;>
    rw [hsqrt1 _ (by linarith), div_one] <;>
    first
      | exact e1
      | exact e2
      | exact e3
      | exact e4

/-- C3: for every unit quaternion — including the identity, axis-aligned
rotations and ties for the maximum-magnitude component — decompressing the
three words produced by `compressQuaternion` and renormalizing yields a
quaternion within `2e-4` of the input in every component. -/
theorem C3_quaternion_roundtrip (q0 q1 q2 q3 : ℝ)
    (hunit : q0 * q0 + q1 * q1 + q2 * q2 + q3 * q3 = 1) :
    abs ((renormalize (parseCompressedQuaternion (compressQuaternion q0 q1 q2 q3).1
        (compressQuaternion q0 q1 q2 q3).2.1 (compressQuaternion q0 q1 q2 q3).2.2)).1 -
      q0) < 2 / 10000 ∧
    abs ((renormalize (parseCompressedQuaternion (compressQuaternion q0 q1 q2 q3).1
        (compressQuaternion q0 q1 q2 q3).2.1 (compressQuaternion q0 q1 q2 q3).2.2)).2.1 -
      q1) < 2 / 10000 ∧
    abs ((renormalize (parseCompressedQuaternion (compressQuaternion q0 q1 q2 q3).1
        (compressQuaternion q0 q1 q2 q3).2.1 (compressQuaternion q0 q1 q2 q3).2.2)).2.2.1 -
      q2) < 2 / 10000 ∧
    abs ((renormalize (parseCompressedQuaternion (compressQuaternion q0 q1 q2 q3).1
        (compressQuaternion q0 q1 q2 q3).2.1 (compressQuaternion q0 q1 q2 q3).2.2)).2.2.2 -
      q3) < 2 / 10000 := by
  obtain ⟨m, sb, aT, bT, cT, sT, hm, hsb, hcomp, hperm, hsum, hq, haT, hbT, hcT, hsgn⟩ :=
    compress_correct q0 q1 q2 q3 hunit
  obtain ⟨hka, hea⟩ := quantize_err aT haT
  obtain ⟨hkb, heb⟩ := quantize_err bT hbT
  obtain ⟨hkc, hec⟩ := quantize_err cT hcT
  simp only [hcomp]
  rw [decompress_pack sb m _ _ _ hsb hm hka hkb hkc]
  rcases m with _ | _ | _ | _ | m5
  · simp only [Prod.mk.injEq] at hperm
    obtain ⟨hp1, hp2, hp3, hp4⟩ := hperm
    rw [← hp1, ← hp2, ← hp3, ← hp4]
    obtain ⟨hD2pos, hdb⟩ := recon_d aT bT cT sT _ _ _ hsum hq haT hbT hcT hea heb hec
    obtain ⟨hderr, hdd⟩ := d_err sb sT _ hsgn hD2pos hdb
    exact (renorm_bound _ _ _ _ _ _ _ _ hdd hderr hea heb hec).1
  · simp only [Prod.mk.injEq] at hperm
    obtain ⟨hp1, hp2, hp3, hp4⟩ := hperm
    rw [← hp1, ← hp2, ← hp3, ← hp4]
    obtain ⟨hD2pos, hdb⟩ := recon_d aT bT cT sT _ _ _ hsum hq haT hbT hcT hea heb hec
    obtain ⟨hderr, hdd⟩ := d_err sb sT _ hsgn hD2pos hdb
    exact (renorm_bound _ _ _ _ _ _ _ _ hdd hderr hea heb hec).2.1
  · simp only [Prod.mk.injEq] at hperm
    obtain ⟨hp1, hp2, hp3, hp4⟩ := hperm
    rw [← hp1, ← hp2, ← hp3, ← hp4]
    obtain ⟨hD2pos, hdb⟩ := recon_d aT bT cT sT _ _ _ hsum hq haT hbT hcT hea heb hec
    obtain ⟨hderr, hdd⟩ := d_err sb sT _ hsgn hD2pos hdb
    exact (renorm_bound _ _ _ _ _ _ _ _ hdd hderr hea heb hec).2.2.1
  · simp only [Prod.mk.injEq] at hperm
    obtain ⟨hp1, hp2, hp3, hp4⟩ := hperm
    rw [← hp1, ← hp2, ← hp3, ← hp4]
    obtain ⟨hD2pos, hdb⟩ := recon_d aT bT cT sT _ _ _ hsum hq haT hbT hcT hea heb hec
    obtain ⟨hderr, hdd⟩ := d_err sb sT _ hsgn hD2pos hdb
    exact (renorm_bound _ _ _ _ _ _ _ _ hdd hderr hea heb hec).2.2.2
  · exact absurd hm (by omega)

/-- C3 (witness): the identity quaternion `(0, 0, 0, 1)`. -/
theorem C3_quaternion_roundtrip_witness :
    ((0 : ℝ) * 0 + 0 * 0 + 0 * 0 + 1 * 1 = 1) ∧
    abs ((renormalize (parseCompressedQuaternion (compressQuaternion 0 0 0 1).1
        (compressQuaternion 0 0 0 1).2.1 (compressQuaternion 0 0 0 1).2.2)).1 -
      0) < 2 / 10000 ∧
    abs ((renormalize (parseCompressedQuaternion (compressQuaternion 0 0 0 1).1
        (compressQuaternion 0 0 0 1).2.1 (compressQuaternion 0 0 0 1).2.2)).2.1 -
      0) < 2 / 10000 ∧
    abs ((renormalize (parseCompressedQuaternion (compressQuaternion 0 0 0 1).1
        (compressQuaternion 0 0 0 1).2.1 (compressQuaternion 0 0 0 1).2.2)).2.2.1 -
      0) < 2 / 10000 ∧
    abs ((renormalize (parseCompressedQuaternion (compressQuaternion 0 0 0 1).1
        (compressQuaternion 0 0 0 1).2.1 (compressQuaternion 0 0 0 1).2.2)).2.2.2 -
      1) < 2 / 10000 :=
  ⟨by norm_num, C3_quaternion_roundtrip 0 0 0 1 (by norm_num)⟩
